import Mathlib

/-!
# Verification of `nordlys/core/ml/instances.py`

A shallow embedding of the `Instances` class (nordlys/core/ml/instances.py)
together with proofs about its loaders and exporters.

Modelling conventions:
* A Python dict is an insertion-ordered association list with unique keys;
  `d[k] = v` is `alSet` (replace in place when the key exists, append
  otherwise) and `d.get(k)` / `k in d` is `alGet`.
* Python values stored in instance fields are modelled by `Val`
  (strings and integers, the two kinds the code stores); scores are
  rationals (they only ever flow through comparisons).
* File effects are modelled by the final content of the destination file
  (`FileOutcome` for `to_libsvm`, which can abort mid-call).
* `int(x)` is `pyInt` (decimal literal with optional sign); a failed
  conversion is a raised `ValueError`/`TypeError`, modelled as `none`.
-/

namespace Nordlys

/-- A dynamically-typed value as stored in instance fields: the code puts
strings (TSV cells) and integers (`add_qids`) into properties. -/
inductive Val where
  | str : String → Val
  | intv : Int → Val
deriving DecidableEq, Repr

/-- Association-list lookup: Python `d.get(k)` (and the `k in d` test). -/
def alGet {α β : Type} [DecidableEq α] : List (α × β) → α → Option β
  | [], _ => none
  | (k0, v0) :: rest, k => if k0 = k then some v0 else alGet rest k

/-- Association-list store: Python `d[k] = v` on an insertion-ordered dict —
replaces in place when the key exists, appends otherwise. -/
def alSet {α β : Type} [DecidableEq α] : List (α × β) → α → β → List (α × β)
  | [], k, v => [(k, v)]
  | (k0, v0) :: rest, k, v =>
      if k0 = k then (k0, v) :: rest else (k0, v0) :: alSet rest k v

/-- One ML instance: `nordlys/core/ml/instance.py`'s record shape as used by
`instances.py` (id, properties, features, target, score). -/
structure Instance where
  id : String
  properties : List (String × Val) := []
  features : List (String × Val) := []
  target : Option Val := none
  score : Option Rat := none
deriving DecidableEq, Repr

/-- `Instance.add_property(name, value)`: insert or overwrite. -/
def Instance.add_property (ins : Instance) (name : String) (v : Val) : Instance :=
  { ins with properties := alSet ins.properties name v }

/-- `Instance.add_feature(name, value)`: insert or overwrite. -/
def Instance.add_feature (ins : Instance) (name : String) (v : Val) : Instance :=
  { ins with features := alSet ins.features name v }

/-- `Instance.get_property(name)`: value or the `None` sentinel. -/
def Instance.get_property (ins : Instance) (name : String) : Option Val :=
  alGet ins.properties name

/-- A fresh `Instance(ins_id)`. -/
def Instance.blank (ins_id : String) : Instance := { id := ins_id }

/-- `Instances.__instances`: a dict from instance id to `Instance`. -/
abbrev Instances := List (String × Instance)

/-- `Instances.add_instance`: `self.__instances[instance.id] = instance`. -/
def Instances.add_instance (s : Instances) (ins : Instance) : Instances :=
  alSet s ins.id ins

/-- `Instances.append_instances(ins_list)`. -/
def Instances.append_instances (s : Instances) (l : List Instance) : Instances :=
  l.foldl Instances.add_instance s

/-- `Instances.__init__` on a list of pre-built instances. -/
def Instances.ofList (l : List Instance) : Instances :=
  Instances.append_instances [] l

/-- `Instances.get_instance(instance_id)`. -/
def Instances.get_instance (s : Instances) (instance_id : String) : Option Instance :=
  alGet s instance_id

/-- `Instances.get_all()`: the dict's values in iteration order. -/
def Instances.get_all (s : Instances) : List Instance :=
  s.map Prod.snd

/-- `Instances.get_all_ids()`. -/
def Instances.get_all_ids (s : Instances) : List String :=
  s.map Prod.fst

/-! ## TSV loading (`Instances.__load_from_tsv` and its three wrappers) -/

/-- The kind argument (`type`) of `__load_from_tsv`. -/
inductive LoadKind where
  | properties
  | features
  | target
deriving DecidableEq, Repr

/-- A row as produced by `csv.DictReader`: field name to cell value. -/
abbrev Row := List (String × String)

/-- A parsed TSV file: its path, its header (`reader.fieldnames`) and its
data rows. -/
structure TsvFile where
  name : String
  fieldnames : List String
  rows : List Row
deriving DecidableEq, Repr

/-- `set(params) == set(fieldnames[1:])`: order-independent set equality. -/
def sameSet (a b : List String) : Bool :=
  a.all (fun x => b.contains x) && b.all (fun x => a.contains x)

/-- The message of the exception raised on a header mismatch. -/
def tsvMismatchMsg (params : List String) (tsv_file : String) : String :=
  "TSV header does not match params \"" ++ String.intercalate "," params ++
    "\" in file:\n\t" ++ tsv_file

/-- `line["id"]` (a `DictReader` row always carries every field name). -/
def rowId (row : Row) : String :=
  (alGet row "id").getD ""

/-- The body of the `for param in params` loop of `__load_from_tsv`,
folded over `params` for one row and one instance. -/
def applyParams (k : LoadKind) (params : List String) (row : Row)
    (ins : Instance) : Instance :=
  params.foldl (fun ins param =>
    match k with
    | .properties => ins.add_property param (.str ((alGet row param).getD ""))
    | .features => ins.add_feature param (.str ((alGet row param).getD ""))
    | .target => { ins with target := some (.str ((alGet row param).getD "")) }) ins

/-- One iteration of the `for line in reader` loop: look the instance up by
id (creating and registering a fresh one when absent) and apply the row. -/
def loadRow (k : LoadKind) (params : List String) (s : Instances) (row : Row) :
    Instances :=
  let ins_id := rowId row
  let ins := match alGet s ins_id with
    | some i => i
    | none => Instance.blank ins_id
  alSet s ins_id (applyParams k params row ins)

/-- The row-processing loop of `__load_from_tsv` (after the header check). -/
def loadRows (k : LoadKind) (params : List String) (rows : List Row)
    (s : Instances) : Instances :=
  rows.foldl (loadRow k params) s

/-- `Instances.__load_from_tsv(tsv_file, type, params)`: header check, then
the row loop; a mismatching header raises before touching any instance. -/
def loadFromTsv (t : TsvFile) (k : LoadKind) (params : List String)
    (s : Instances) : Except String Instances :=
  if sameSet params (t.fieldnames.drop 1) then
    .ok (loadRows k params t.rows s)
  else
    .error (tsvMismatchMsg params t.name)

/-- `Instances.add_properties_from_tsv`. -/
def Instances.add_properties_from_tsv (s : Instances) (t : TsvFile)
    (properties : List String) : Except String Instances :=
  loadFromTsv t .properties properties s

/-- `Instances.add_features_from_tsv`. -/
def Instances.add_features_from_tsv (s : Instances) (t : TsvFile)
    (features : List String) : Except String Instances :=
  loadFromTsv t .features features s

/-- `Instances.add_target_from_tsv`. -/
def Instances.add_target_from_tsv (s : Instances) (t : TsvFile) :
    Except String Instances :=
  loadFromTsv t .target ["target"] s

/-! ## Structured-record (JSON) round trip -/

/-- The structured record of one instance: `{properties, features, target,
score}` with absent fields omitted. -/
structure StructRecord where
  properties : Option (List (String × Val)) := none
  features : Option (List (String × Val)) := none
  target : Option Val := none
  score : Option Rat := none
deriving DecidableEq, Repr

/-- Modelled from the spec: `Instance.to_json` lives in
`nordlys/core/ml/instance.py`, which is not part of the sources under
study. Spec §4.1: "Serialize to a structured record: emits
`{id: {properties: {...}, features: {...}, target: ..., score: ...}}`,
omitting absent fields." -/
def Instance.to_json (ins : Instance) : String × StructRecord :=
  (ins.id,
   { properties := if ins.properties.isEmpty then none else some ins.properties,
     features := if ins.features.isEmpty then none else some ins.features,
     target := ins.target,
     score := ins.score })

/-- Modelled from the spec: `Instance.from_json` lives in
`nordlys/core/ml/instance.py`, which is not part of the sources under
study. Spec §4.1: "Build from a structured record: inverse operation; must
reconstruct properties/features/target/score exactly, tolerating missing
optional fields." -/
def Instance.from_json (ins_id : String) (fields : StructRecord) : Instance :=
  { id := ins_id,
    properties := fields.properties.getD [],
    features := fields.features.getD [],
    target := fields.target,
    score := fields.score }

/-- `Instances.to_json`: `inss_json.update(ins.to_json())` over `get_all()`;
the in-memory mapping that is returned (and dumped when a file is given). -/
def Instances.to_json (s : Instances) : List (String × StructRecord) :=
  (Instances.get_all s).foldl
    (fun acc ins => alSet acc ins.to_json.1 ins.to_json.2) []

/-- `Instances.from_json` on the parsed document: build `Instance.from_json`
for each item and hand the list to the constructor. -/
def Instances.from_json (data : List (String × StructRecord)) : Instances :=
  Instances.ofList (data.map (fun q => Instance.from_json q.1 q.2))

/-! ## Python comparison primitives -/

/-- Python string comparison (`s <= t`): lexicographic on code points. -/
def charsLe : List Char → List Char → Bool
  | [], _ => true
  | _ :: _, [] => false
  | a :: as, b :: bs => if a = b then charsLe as bs else decide (a < b)

/-- `s <= t` on Python strings. -/
def strLe (s t : String) : Bool :=
  charsLe s.data t.data

/-- Python 2 comparison of the values used as dict keys in `to_treceval`
(`None` below everything, integers below strings — py2 orders mixed types
by type name — integers by value, strings by code points). -/
def ovLeB : Option Val → Option Val → Bool
  | none, _ => true
  | some _, none => false
  | some (.intv m), some (.intv n) => decide (m ≤ n)
  | some (.intv _), some (.str _) => true
  | some (.str _), some (.intv _) => false
  | some (.str s), some (.str t) => strLe s t

/-- `int(x)` on a Python string: an optionally-signed decimal literal;
anything else raises `ValueError` (modelled as `none`). -/
def pyIntOfString (s : String) : Option Int :=
  let digitsVal : List Char → Int :=
    fun cs => Int.ofNat (cs.foldl (fun n c => n * 10 + (c.toNat - '0'.toNat)) 0)
  match s.data with
  | [] => none
  | '-' :: rest =>
      if rest ≠ [] ∧ rest.all Char.isDigit then some (-(digitsVal rest)) else none
  | '+' :: rest =>
      if rest ≠ [] ∧ rest.all Char.isDigit then some (digitsVal rest) else none
  | cs => if cs.all Char.isDigit then some (digitsVal cs) else none

/-- `int(x)` on a stored value: integers pass through, strings are parsed. -/
def pyInt : Val → Option Int
  | .intv n => some n
  | .str s => pyIntOfString s

/-! ## `Instances.to_treceval` -/

/-- One iteration of the first loop of `to_treceval`: skip unscored
instances; otherwise keep the per-`(qid, docid)` maximum score in the
nested dict. -/
def uStep (qid_prop docid_prop : String)
    (acc : List (Option Val × List (Option Val × Rat))) (ins : Instance) :
    List (Option Val × List (Option Val × Rat)) :=
  match ins.score with
  | none => acc
  | some sc =>
    let qid := ins.get_property qid_prop
    let doc_id := ins.get_property docid_prop
    match alGet ((alGet acc qid).getD []) doc_id with
    | none => alSet acc qid (alSet ((alGet acc qid).getD []) doc_id sc)
    | some score =>
        if score < sc then
          alSet acc qid (alSet ((alGet acc qid).getD []) doc_id sc)
        else acc

/-- The nested dict `unique_entries` after the first loop of `to_treceval`. -/
def uniqueEntries (s : Instances) (qid_prop docid_prop : String) :
    List (Option Val × List (Option Val × Rat)) :=
  (Instances.get_all s).foldl (uStep qid_prop docid_prop) []

/-- The output loop's iteration order: `sorted(unique_entries.items())`
(ascending qid; the dict values are never compared since qids are unique),
then each group's docs by `sorted(docs.items(), key=score, reverse=True)`
(descending score, stable). -/
def rankedGroups (s : Instances) (qid_prop docid_prop : String) :
    List (Option Val × List (Option Val × Rat)) :=
  (List.insertionSort (fun a b => ovLeB a.1 b.1 = true)
      (uniqueEntries s qid_prop docid_prop)).map
    (fun g => (g.1, List.insertionSort (fun a b : Option Val × Rat => b.2 ≤ a.2) g.2))

/-- One emitted row of the TREC run file: rendered as
`qid \t Q0 \t docid \t rank \t score(5dp) \t nordlys`. -/
structure TrecRow where
  qid : Option Val
  docid : Option Val
  rank : Nat
  score : Rat
deriving DecidableEq, Repr

/-- The rows `to_treceval` renders when its output loop succeeds, in file
order: per sorted query group, its docs in descending-score order with
ranks `1, 2, ...`. The loop's failure path (a non-string key in the
concatenation) is modelled by `trecevalResult` below. -/
def trecevalRows (s : Instances) (qid_prop docid_prop : String) : List TrecRow :=
  (rankedGroups s qid_prop docid_prop).flatMap
    (fun g => g.2.enum.map (fun q => ⟨g.1, q.2.1, q.1 + 1, q.2.2⟩))

/-- Whether a stored key value renders in the Python 2 concatenation
`qid + "\tQ0\t" + doc_id + ...`: only a string does — `None + str` (an
absent property) and `int + str` (e.g. the `q_id` that `add_qids` stores)
raise `TypeError`. -/
def isStrVal : Option Val → Bool
  | some (.str _) => true
  | _ => false

/-- The observable outcome of the `to_treceval` call: its output loop
concatenates every surviving qid and docid into `out_str`, so as soon as
one of them is not a string the call raises `TypeError`; the destination
file is only opened after the loop, so such a call raises and writes
nothing. On success the rendered rows of `trecevalRows` are written. -/
def trecevalResult (s : Instances) (qid_prop docid_prop : String) :
    Except String (List TrecRow) :=
  if (rankedGroups s qid_prop docid_prop).all
      (fun g => isStrVal g.1 && g.2.all (fun x => isStrVal x.1)) then
    .ok (trecevalRows s qid_prop docid_prop)
  else
    .error "TypeError: cannot concatenate str and non-str (qid or docid)"

/-! ## `Instances.to_libsvm` -/

/-- Modelled from the spec: `Instance.to_libsvm` lives in
`nordlys/core/ml/instance.py`, which is not part of the sources under
study. Spec §4.1: "emit `<target> qid:<qid-or-id> <feature-index>:<value>
... # <id>`. Feature indices are 1-based, assigned by position in the given
feature-name list, and only features present on the instance are
emitted." -/
def Instance.to_libsvm (ins : Instance) (features : List String)
    (qid_prop : Option String) : String :=
  let showVal : Val → String := fun v =>
    match v with
    | .str s => s
    | .intv n => toString n
  let showOpt : Option Val → String := fun o =>
    match o with
    | none => "None"
    | some v => showVal v
  let qidStr := match qid_prop with
    | none => ins.id
    | some p => showOpt (ins.get_property p)
  showOpt ins.target ++ " qid:" ++ qidStr ++
    String.join ((features.enum).filterMap
      (fun q => (alGet ins.features q.2).map
        (fun v => " " ++ toString (q.1 + 1) ++ ":" ++ showVal v))) ++
    " # " ++ ins.id

/-- The sort key of `to_libsvm`: `int(ins.id)` when `qid_prop` is unset,
`int(ins.get_property(qid_prop))` otherwise; `none` = the conversion
raises. -/
def libsvmKey (qid_prop : Option String) (ins : Instance) : Option Int :=
  match qid_prop with
  | none => pyIntOfString ins.id
  | some p => (ins.get_property p).bind pyInt

/-- The state of the destination file when `to_libsvm` returns or raises:
its final content, and the escaping exception if any. -/
structure FileOutcome where
  content : String
  err : Option String
deriving DecidableEq, Repr

/-- `Instances.to_libsvm(file_name, qid_prop)` as its effect on the
destination file. The `_prev` argument is the file's content before the
call: every path first truncates the file (`open(file_name, "w")`), so the
outcome never depends on it. The sort (and its `int` conversions) runs
after the truncation and before any write, so a key that fails to parse
leaves the file empty. -/
def Instances.to_libsvm (s : Instances) (qid_prop : Option String)
    (_prev : String) : FileOutcome :=
  match Instances.get_all s with
  | [] => { content := "", err := none }
  | ins0 :: rest =>
    let features :=
      List.insertionSort (fun a b => strLe a b = true) (ins0.features.map Prod.fst)
    let header :=
      "# target instance_Id" ++ String.join (features.map (fun f => " " ++ f)) ++ "\n"
    if (ins0 :: rest).all (fun i => (libsvmKey qid_prop i).isSome) then
      let sorted_instances :=
        List.insertionSort
          (fun a b => (libsvmKey qid_prop a).getD 0 ≤ (libsvmKey qid_prop b).getD 0)
          (ins0 :: rest)
      { content := header ++
          String.join (sorted_instances.map (fun i => i.to_libsvm features qid_prop ++ "\n")),
        err := none }
    else
      { content := "", err := some "ValueError: invalid literal for int()" }

/-! ## `Instances.add_qids` -/

/-- The loop of `add_qids`: thread the `prop_ids` dict through the
instances in iteration order, assigning `len(prop_ids) + 1` to each value
seen for the first time. -/
def addQidsGo (prop : String) (prop_ids : List (Option Val × Int)) :
    Instances → Instances
  | [] => []
  | (k, ins) :: rest =>
      let p := ins.get_property prop
      match alGet prop_ids p with
      | some q_id =>
          (k, ins.add_property "q_id" (.intv q_id)) :: addQidsGo prop prop_ids rest
      | none =>
          let q_id : Int := prop_ids.length + 1
          (k, ins.add_property "q_id" (.intv q_id)) ::
            addQidsGo prop (alSet prop_ids p q_id) rest

/-- `Instances.add_qids(prop)`. -/
def Instances.add_qids (s : Instances) (prop : String) : Instances :=
  addQidsGo prop [] s

/-- The first line of a piece of file content. -/
def firstLine (s : String) : String :=
  ⟨s.data.takeWhile (fun c => c ≠ '\n')⟩

/-- First-encounter deduplication with an already-seen prefix: the distinct
values of `l` that are not in `seen`, in first-encounter order. -/
def firstDedupFrom (seen : List (Option Val)) : List (Option Val) → List (Option Val)
  | [] => []
  | x :: xs =>
      if x ∈ seen then firstDedupFrom seen xs
      else x :: firstDedupFrom (seen ++ [x]) xs

/-- The `prop_ids` dict of `add_qids` holding the values of `seen` numbered
`n+1, n+2, ...` in order. -/
def numberedFrom (n : Int) : List (Option Val) → List (Option Val × Int)
  | [] => []
  | x :: xs => (x, n + 1) :: numberedFrom (n + 1) xs

/-- The position of the first occurrence of `v` (the length of the list
when `v` is absent). -/
def idxOfV (v : Option Val) : List (Option Val) → Nat
  | [] => 0
  | x :: xs => if x = v then 0 else idxOfV v xs + 1

/-- The projection of `uStep` onto the single `(q, d)` slot of the nested
dict: how one instance updates the running maximum for that pair. -/
def scoreStep (qid_prop docid_prop : String) (q d : Option Val)
    (acc : Option Rat) (ins : Instance) : Option Rat :=
  match ins.score with
  | none => acc
  | some sc =>
      if ins.get_property qid_prop = q ∧ ins.get_property docid_prop = d then
        match acc with
        | none => some sc
        | some m => if m < sc then some sc else some m
      else acc

/-- The per-(qid, docid) running maximum that the first loop of
`to_treceval` maintains: the maximum score over the scored instances of `l`
whose qid/docid properties are `q`/`d` (`none` if there is none). -/
def bestScoreF (qid_prop docid_prop : String) (q d : Option Val)
    (l : List Instance) : Option Rat :=
  l.foldl (scoreStep qid_prop docid_prop q d) none

/-- The effect of a load's row loop on the single dict slot `key`: each row
rewrites the instance (creating a blank one when the slot is empty). -/
def applyRowsOpt (k : LoadKind) (params : List String) (key : String)
    (rows : List Row) (o : Option Instance) : Option Instance :=
  rows.foldl
    (fun o row => some (applyParams k params row (o.getD (Instance.blank key)))) o

/-- A load's row loop applied to one existing instance. -/
def rowsUpdate (k : LoadKind) (params : List String) (rows : List Row)
    (ins : Instance) : Instance :=
  rows.foldl (fun ins row => applyParams k params row ins) ins

/-! ## Association-list lemmas -/

theorem alGet_alSet_self {α β : Type} [DecidableEq α] (l : List (α × β)) (k : α)
    (v : β) : alGet (alSet l k v) k = some v := by
  induction l with
  | nil => simp [alGet, alSet]
  | cons p rest ih =>
    rcases p with ⟨k0, v0⟩
    by_cases h : k0 = k <;> simp [alGet, alSet, h, ih]

theorem alGet_alSet_ne {α β : Type} [DecidableEq α] (l : List (α × β)) (k k' : α)
    (v : β) (h : k' ≠ k) : alGet (alSet l k v) k' = alGet l k' := by
  induction l with
  | nil => simp [alGet, alSet, Ne.symm h]
  | cons p rest ih =>
    rcases p with ⟨k0, v0⟩
    by_cases h1 : k0 = k
    · subst h1
      simp [alGet, alSet, Ne.symm h]
    · by_cases h2 : k0 = k' <;> simp [alGet, alSet, h, h1, h2, ih]

theorem mem_alSet {α β : Type} [DecidableEq α] (l : List (α × β)) (k : α) (v : β)
    (g : α × β) (h : g ∈ alSet l k v) : g = (k, v) ∨ g ∈ l := by
  induction l with
  | nil => simpa [alSet] using h
  | cons p rest ih =>
    rcases p with ⟨k0, v0⟩
    by_cases h1 : k0 = k
    · subst h1
      rcases (by simpa [alSet] using h : g = (k0, v) ∨ g ∈ rest) with h2 | h2
      · left; exact h2
      · right; simp [h2]
    · rcases (by simpa [alSet, h1] using h : g = (k0, v0) ∨ g ∈ alSet rest k v)
        with h2 | h2
      · right; simp [h2]
      · rcases ih h2 with h3 | h3
        · left; exact h3
        · right; simp [h3]

theorem keys_alSet_subset {α β : Type} [DecidableEq α] (l : List (α × β)) (k : α)
    (v : β) (x : α) (h : x ∈ (alSet l k v).map Prod.fst) :
    x ∈ l.map Prod.fst ∨ x = k := by
  rcases List.mem_map.mp h with ⟨g, hg, hx⟩
  rcases mem_alSet l k v g hg with h1 | h1
  · right; rw [← hx, h1]
  · left; exact List.mem_map.mpr ⟨g, h1, hx⟩

theorem alSet_keys_nodup {α β : Type} [DecidableEq α] (l : List (α × β)) (k : α)
    (v : β) (h : (l.map Prod.fst).Nodup) : ((alSet l k v).map Prod.fst).Nodup := by
  induction l with
  | nil => simp [alSet]
  | cons p rest ih =>
    rcases p with ⟨k0, v0⟩
    simp only [List.map_cons, List.nodup_cons] at h
    by_cases h1 : k0 = k
    · subst h1
      simpa [alSet] using h
    · simp only [alSet, if_neg h1, List.map_cons, List.nodup_cons]
      exact ⟨fun hmem => (keys_alSet_subset rest k v k0 hmem).elim h.1 h1, ih h.2⟩

theorem alSet_of_not_mem {α β : Type} [DecidableEq α] (l : List (α × β)) (k : α)
    (v : β) (h : k ∉ l.map Prod.fst) : alSet l k v = l ++ [(k, v)] := by
  induction l with
  | nil => simp [alSet]
  | cons p rest ih =>
    rcases p with ⟨k0, v0⟩
    simp only [List.map_cons, List.mem_cons] at h
    push_neg at h
    simp [alSet, Ne.symm h.1, ih h.2]

theorem alGet_eq_some_of_mem {α β : Type} [DecidableEq α] (l : List (α × β))
    (k : α) (v : β) (hnd : (l.map Prod.fst).Nodup) (hm : (k, v) ∈ l) :
    alGet l k = some v := by
  induction l with
  | nil => simp at hm
  | cons p rest ih =>
    rcases p with ⟨k0, v0⟩
    simp only [List.map_cons, List.nodup_cons] at hnd
    rcases List.mem_cons.mp hm with hm1 | hm1
    · rw [Prod.mk.injEq] at hm1
      simp [alGet, hm1.1, hm1.2]
    · have hk : k0 ≠ k := by
        intro h
        exact hnd.1 (h ▸ (List.mem_map.mpr ⟨(k, v), hm1, rfl⟩))
      simp [alGet, hk, ih hnd.2 hm1]

theorem mem_of_alGet_eq_some {α β : Type} [DecidableEq α] (l : List (α × β))
    (k : α) (v : β) (h : alGet l k = some v) : (k, v) ∈ l := by
  induction l with
  | nil => simp [alGet] at h
  | cons p rest ih =>
    rcases p with ⟨k0, v0⟩
    by_cases h1 : k0 = k
    · subst h1
      have hv : v0 = v := by simpa [alGet] using h
      simp [hv]
    · simp only [alGet, if_neg h1] at h
      simp [ih h]

/-! ## Order properties of the comparison relations -/

theorem charsLe_total (a b : List Char) : charsLe a b = true ∨ charsLe b a = true := by
  induction a generalizing b with
  | nil => left; simp [charsLe]
  | cons x xs ih =>
    cases b with
    | nil => right; simp [charsLe]
    | cons y ys =>
      by_cases h : x = y
      · subst h
        simpa [charsLe] using ih ys
      · rcases lt_trichotomy x y with h1 | h1 | h1
        · left; simp [charsLe, h, h1]
        · exact absurd h1 h
        · right
          simp [charsLe, Ne.symm h, h1]

theorem charsLe_trans (a b c : List Char) (h1 : charsLe a b = true)
    (h2 : charsLe b c = true) : charsLe a c = true := by
  induction a generalizing b c with
  | nil => simp [charsLe]
  | cons x xs ih =>
    cases b with
    | nil => simp [charsLe] at h1
    | cons y ys =>
      cases c with
      | nil => simp [charsLe] at h2
      | cons z zs =>
        by_cases hxy : x = y
        · subst hxy
          by_cases hxz : x = z
          · subst hxz
            simp only [charsLe, if_pos rfl] at h1 h2 ⊢
            exact ih ys zs h1 h2
          · simp only [charsLe, if_pos rfl] at h1
            simpa [charsLe, hxz] using h2
        · by_cases hyz : y = z
          · subst hyz
            simpa [charsLe, hxy] using h1
          · simp only [charsLe, if_neg hxy, decide_eq_true_eq] at h1
            simp only [charsLe, if_neg hyz, decide_eq_true_eq] at h2
            have hxz : x < z := lt_trans h1 h2
            simp [charsLe, ne_of_lt hxz, hxz]

instance : IsTotal String (fun a b => strLe a b = true) :=
  ⟨fun a b => charsLe_total a.data b.data⟩

instance : IsTrans String (fun a b => strLe a b = true) :=
  ⟨fun a b c => charsLe_trans a.data b.data c.data⟩

theorem ovLeB_total (a b : Option Val) : ovLeB a b = true ∨ ovLeB b a = true := by
  rcases a with _ | av <;> rcases b with _ | bv
  · left; simp [ovLeB]
  · left; simp [ovLeB]
  · right; simp [ovLeB]
  · rcases av with s1 | m <;> rcases bv with s2 | n
    · exact charsLe_total s1.data s2.data
    · right; simp [ovLeB]
    · left; simp [ovLeB]
    · rcases Int.le_total m n with h | h
      · left; simpa [ovLeB] using h
      · right; simpa [ovLeB] using h

theorem ovLeB_trans (a b c : Option Val) (h1 : ovLeB a b = true)
    (h2 : ovLeB b c = true) : ovLeB a c = true := by
  rcases a with _ | av
  · simp [ovLeB]
  · rcases b with _ | bv
    · simp [ovLeB] at h1
    · rcases c with _ | cv
      · simp [ovLeB] at h2
      · rcases av with s1 | m <;> rcases bv with s2 | n <;> rcases cv with s3 | p
        all_goals simp_all [ovLeB]
        · exact charsLe_trans s1.data s2.data s3.data h1 h2
        · exact le_trans h1 h2

/-! ## Claim C8: empty collection in `to_libsvm` -/

/-- C8: for every empty collection, `to_libsvm` writes an empty file to the
destination and returns without raising an error. -/
theorem to_libsvm_empty_collection (s : Instances) (qid_prop : Option String)
    (prev : String) (h : Instances.get_all s = []) :
    Instances.to_libsvm s qid_prop prev = { content := "", err := none } := by
  simp [Instances.to_libsvm, h]

theorem to_libsvm_empty_collection_witness :
    Instances.to_libsvm [] none "previous" = { content := "", err := none } :=
  to_libsvm_empty_collection [] none "previous" rfl

/-! ## Claim C2: schema mismatch on delimited loads -/

/-- C2 (counterexample): the schema-mismatch error does not identify the
actual header of the offending file — two sources with different non-id
headers produce the identical error message, so the message cannot name
the actual header. -/
theorem tsv_mismatch_error_lacks_actual_header :
    loadFromTsv ⟨"gold.tsv", ["id", "colA"], []⟩ .properties ["colX"] [] =
      .error (tsvMismatchMsg ["colX"] "gold.tsv") ∧
    loadFromTsv ⟨"gold.tsv", ["id", "colB"], []⟩ .properties ["colX"] [] =
      .error (tsvMismatchMsg ["colX"] "gold.tsv") ∧
    (["id", "colA"] : List String) ≠ ["id", "colB"] :=
  ⟨rfl, rfl, by decide⟩

theorem sameSet_iff (a b : List String) :
    sameSet a b = true ↔ a.toFinset = b.toFinset := by
  simp only [sameSet, Bool.and_eq_true, List.all_eq_true]
  constructor
  · rintro ⟨h1, h2⟩
    ext x
    simp only [List.mem_toFinset]
    exact ⟨fun hx => List.elem_iff.mp (h1 x hx), fun hx => List.elem_iff.mp (h2 x hx)⟩
  · intro h
    have hmem : ∀ x : String, x ∈ a ↔ x ∈ b := by
      intro x
      have := Finset.ext_iff.mp h x
      simpa only [List.mem_toFinset] using this
    exact ⟨fun x hx => List.elem_iff.mpr ((hmem x).mp hx),
           fun x hx => List.elem_iff.mpr ((hmem x).mpr hx)⟩

/-- C2 (amended): if the set of non-id column names in the source's header
differs from the expected column set (set equality, order-independent), the
call fails — before any instance is mutated — with a schema-mismatch error
identifying the expected columns and the offending file (the actual header
is not part of the message). -/
theorem load_from_tsv_schema_mismatch (t : TsvFile) (k : LoadKind)
    (params : List String) (s : Instances)
    (h : params.toFinset ≠ (t.fieldnames.drop 1).toFinset) :
    loadFromTsv t k params s = .error (tsvMismatchMsg params t.name) := by
  have hss : sameSet params (t.fieldnames.drop 1) = false := by
    cases hs : sameSet params (t.fieldnames.drop 1)
    · rfl
    · exact absurd ((sameSet_iff _ _).mp hs) h
  simp only [loadFromTsv, hss, Bool.false_eq_true, if_false]

theorem load_from_tsv_schema_mismatch_witness :
    loadFromTsv ⟨"f.tsv", ["id", "b"], []⟩ .features ["a"] [] =
      .error (tsvMismatchMsg ["a"] "f.tsv") :=
  load_from_tsv_schema_mismatch ⟨"f.tsv", ["id", "b"], []⟩ .features ["a"] []
    (by decide)

/-! ## Claim C10: adding an instance with an existing id replaces wholesale -/

/-- C10: adding instances (via `add_instance`, `append_instances`, or the
list constructor, which all fold `add_instance`) keeps ids unique, and each
id maps to the most recently added instance bearing it — the previously
stored instance is discarded wholesale, not merged. -/
theorem append_instances_replaces_wholesale (c0 : Instances) (l : List Instance)
    (hnd : (c0.map Prod.fst).Nodup) :
    ((Instances.append_instances c0 l).map Prod.fst).Nodup ∧
    ∀ i : String,
      alGet (Instances.append_instances c0 l) i =
        (l.reverse.find? (fun ins => ins.id == i)).or (alGet c0 i) := by
  induction l generalizing c0 with
  | nil => simpa [Instances.append_instances] using hnd
  | cons x xs ih =>
    have hstep : Instances.append_instances c0 (x :: xs) =
        Instances.append_instances (Instances.add_instance c0 x) xs := rfl
    have hnd' : ((Instances.add_instance c0 x).map Prod.fst).Nodup :=
      alSet_keys_nodup c0 x.id x hnd
    rcases ih (Instances.add_instance c0 x) hnd' with ⟨ihnd, ihget⟩
    refine ⟨hstep ▸ ihnd, fun i => ?_⟩
    rw [hstep, ihget i, List.reverse_cons, List.find?_append]
    by_cases hid : x.id = i
    · subst hid
      simp [Instances.add_instance, alGet_alSet_self, Option.or_assoc]
    · have : (x.id == i) = false := by simpa using hid
      simp [Instances.add_instance, alGet_alSet_ne c0 x.id i x (Ne.symm hid),
        List.find?, this, Option.or_assoc]

theorem append_instances_replaces_wholesale_witness :
    ((Instances.append_instances [] [{ id := "a", target := some (.str "1") },
        { id := "a", target := some (.str "2") }]).map Prod.fst).Nodup ∧
    ∀ i : String,
      alGet (Instances.append_instances [] [{ id := "a", target := some (.str "1") },
          { id := "a", target := some (.str "2") }]) i =
        (([{ id := "a", target := some (.str "1") },
           { id := "a", target := some (.str "2") }] :
             List Instance).reverse.find? (fun ins => ins.id == i)).or (alGet [] i) :=
  append_instances_replaces_wholesale [] _ (by decide)

/-! ## Claim C1: `to_libsvm` sort order and failure behaviour -/

instance (qp : Option String) :
    IsTotal Instance (fun a b => (libsvmKey qp a).getD 0 ≤ (libsvmKey qp b).getD 0) :=
  ⟨fun _ _ => le_total _ _⟩

instance (qp : Option String) :
    IsTrans Instance (fun a b => (libsvmKey qp a).getD 0 ≤ (libsvmKey qp b).getD 0) :=
  ⟨fun _ _ _ h1 h2 => le_trans h1 h2⟩

instance : IsTotal String (fun a b => strLe a b = true) :=
  ⟨fun a b => charsLe_total a.data b.data⟩

/-- C1 (counterexample): an instance id that is not integer-parseable makes
`to_libsvm` fail, but the destination file does not keep its previous
contents — it has already been truncated to empty when the sort raises. -/
theorem to_libsvm_nonint_id_truncates :
    (Instances.to_libsvm [("x", { id := "x" })] none "old").err.isSome ∧
    (Instances.to_libsvm [("x", { id := "x" })] none "old").content = "" ∧
    (Instances.to_libsvm [("x", { id := "x" })] none "old").content ≠ "old" := by
  refine ⟨?_, rfl, by decide⟩
  rfl

/-- C1 (amended): with `qid_prop` unset the emitted instances are sorted by
ascending integer instance id (ascending integer `qid_prop` value
otherwise); if any instance's chosen sort key is not integer-parseable the
call fails with a format error before any output is written — but the
destination file has already been truncated, so its previous contents are
destroyed, not preserved. -/
theorem to_libsvm_sorts_or_fails (s : Instances) (qp : Option String)
    (prev : String) (ins0 : Instance) (rest : List Instance)
    (heq : Instances.get_all s = ins0 :: rest) :
    ((∃ i ∈ Instances.get_all s, libsvmKey qp i = none) →
        Instances.to_libsvm s qp prev =
          { content := "", err := some "ValueError: invalid literal for int()" }) ∧
    ((∀ i ∈ Instances.get_all s, (libsvmKey qp i).isSome) →
        (Instances.to_libsvm s qp prev).err = none ∧
        ∃ header fs sorted_instances,
          sorted_instances.Perm (Instances.get_all s) ∧
          List.Sorted
            (fun a b => (libsvmKey qp a).getD 0 ≤ (libsvmKey qp b).getD 0)
            sorted_instances ∧
          (Instances.to_libsvm s qp prev).content =
            header ++
              String.join (sorted_instances.map
                (fun i => i.to_libsvm fs qp ++ "\n"))) := by
  constructor
  · rintro ⟨i, hi, hkey⟩
    rw [heq] at hi
    have hcond : ((ins0 :: rest).all fun i => (libsvmKey qp i).isSome) = false :=
      List.all_eq_false.mpr ⟨i, hi, by simp [hkey]⟩
    simp only [Instances.to_libsvm, heq, hcond, Bool.false_eq_true, if_false]
  · intro hall
    have hcond : ((ins0 :: rest).all fun i => (libsvmKey qp i).isSome) = true :=
      List.all_eq_true.mpr (fun i hi => by simpa using hall i (heq ▸ hi))
    refine ⟨?_, ?_⟩
    · simp only [Instances.to_libsvm, heq, hcond, if_true]
    · refine ⟨"# target instance_Id" ++
          String.join ((List.insertionSort (fun a b => strLe a b = true)
            (ins0.features.map Prod.fst)).map (fun f => " " ++ f)) ++ "\n",
        List.insertionSort (fun a b => strLe a b = true)
          (ins0.features.map Prod.fst),
        List.insertionSort
          (fun a b => (libsvmKey qp a).getD 0 ≤ (libsvmKey qp b).getD 0)
          (ins0 :: rest),
        ?_, List.sorted_insertionSort _ (ins0 :: rest), ?_⟩
      · rw [heq]; exact List.perm_insertionSort _ (ins0 :: rest)
      · simp only [Instances.to_libsvm, heq, hcond, if_true]

theorem to_libsvm_sorts_or_fails_witness :
    ((∃ i ∈ Instances.get_all [("7", { id := "7" }), ("3", { id := "3" })],
        libsvmKey none i = none) →
      Instances.to_libsvm [("7", { id := "7" }), ("3", { id := "3" })] none "p" =
        { content := "", err := some "ValueError: invalid literal for int()" }) ∧
    ((∀ i ∈ Instances.get_all [("7", { id := "7" }), ("3", { id := "3" })],
        (libsvmKey none i).isSome) →
      (Instances.to_libsvm [("7", { id := "7" }), ("3", { id := "3" })] none "p").err
          = none ∧
      ∃ header fs sorted_instances,
        sorted_instances.Perm
          (Instances.get_all [("7", { id := "7" }), ("3", { id := "3" })]) ∧
        List.Sorted
          (fun a b => (libsvmKey none a).getD 0 ≤ (libsvmKey none b).getD 0)
          sorted_instances ∧
        (Instances.to_libsvm [("7", { id := "7" }), ("3", { id := "3" })] none "p").content =
          header ++
            String.join (sorted_instances.map
              (fun i => i.to_libsvm fs none ++ "\n"))) :=
  to_libsvm_sorts_or_fails [("7", { id := "7" }), ("3", { id := "3" })] none "p"
    { id := "7" } [{ id := "3" }] rfl
/-! ## Claim C7: the `to_libsvm` header line -/

theorem takeWhile_append_stop (p : Char → Bool) (l1 l2 : List Char)
    (h1 : ∀ c ∈ l1, p c = true) (h2 : p '\n' = false) :
    (l1 ++ '\n' :: l2).takeWhile p = l1 := by
  induction l1 with
  | nil => simp [List.takeWhile_cons, h2]
  | cons a as ih =>
    rw [List.cons_append, List.takeWhile_cons, if_pos (h1 a (by simp)),
      ih (fun c hc => h1 c (by simp [hc]))]

theorem firstLine_append_newline (h t : String) (hh : '\n' ∉ h.data) :
    firstLine (h ++ "\n" ++ t) = h := by
  have hdata : (h ++ "\n" ++ t).data = h.data ++ '\n' :: t.data := by
    rw [String.data_append, String.data_append]
    simp [show ("\n" : String).data = ['\n'] from rfl]
  unfold firstLine
  rw [hdata, takeWhile_append_stop _ _ _
    (by
      intro c hc
      have hcne : c ≠ '\n' := fun hcc => hh (hcc ▸ hc)
      simp [hcne]) (by simp)]

theorem join_data (l : List String) :
    (String.join l).data = (l.map String.data).flatten := by
  suffices hgen : ∀ acc : String,
      (l.foldl (fun r s => r ++ s) acc).data = acc.data ++ (l.map String.data).flatten by
    simpa using hgen ""
  induction l with
  | nil => intro acc; simp
  | cons a as ih =>
    intro acc
    simp [List.foldl_cons, ih, String.data_append]

/-- C7 (counterexample): the header line does not have the form
`# target id <feature names...>` — the literal after `# target` is
`instance_Id`, not `id`. -/
theorem to_libsvm_header_not_id :
    firstLine (Instances.to_libsvm
        [("1", { id := "1", features := [("a", .str "1")],
                 target := some (.str "0") })] none "").content =
      "# target instance_Id a" ∧
    ("# target instance_Id a" : String) ≠ "# target id a" := by
  constructor
  · rfl
  · decide

/-- C7 (amended): for a non-empty collection whose sort succeeds, the first
line of the `to_libsvm` output is `# target instance_Id <feature names...>`
(not `# target id ...`) where the names are the feature-name set of the
first iterated instance sorted lexicographically, in that order (feature
names are assumed newline-free so that they stay on the first line). -/
theorem to_libsvm_header_line (s : Instances) (qp : Option String)
    (prev : String) (ins0 : Instance) (rest : List Instance)
    (heq : Instances.get_all s = ins0 :: rest)
    (hkeys : ∀ i ∈ Instances.get_all s, (libsvmKey qp i).isSome)
    (hnl : ∀ fname ∈ ins0.features.map Prod.fst, '\n' ∉ fname.data) :
    ∃ names : List String,
      names.Perm (ins0.features.map Prod.fst) ∧
      List.Sorted (fun a b => strLe a b = true) names ∧
      firstLine (Instances.to_libsvm s qp prev).content =
        "# target instance_Id" ++ String.join (names.map (fun f => " " ++ f)) := by
  have hcond : ((ins0 :: rest).all fun i => (libsvmKey qp i).isSome) = true :=
    List.all_eq_true.mpr (fun i hi => by simpa using hkeys i (heq ▸ hi))
  set names := List.insertionSort (fun a b => strLe a b = true)
    (ins0.features.map Prod.fst) with hnames
  have hperm : names.Perm (ins0.features.map Prod.fst) :=
    List.perm_insertionSort _ _
  refine ⟨names, hperm, List.sorted_insertionSort _ _, ?_⟩
  have hcontent : (Instances.to_libsvm s qp prev).content =
      ("# target instance_Id" ++ String.join (names.map (fun f => " " ++ f))) ++
        "\n" ++
        String.join ((List.insertionSort
            (fun a b => (libsvmKey qp a).getD 0 ≤ (libsvmKey qp b).getD 0)
            (ins0 :: rest)).map (fun i => i.to_libsvm names qp ++ "\n")) := by
    simp only [Instances.to_libsvm, heq, hcond, if_true, ← hnames,
      String.append_assoc]
  rw [hcontent]
  refine firstLine_append_newline _ _ ?_
  rw [String.data_append]
  intro hmem
  rcases List.mem_append.mp hmem with hmem | hmem
  · exact absurd hmem (by decide)
  · rw [join_data] at hmem
    rcases List.mem_flatten.mp hmem with ⟨cs, hcs, hmem2⟩
    rcases List.mem_map.mp hcs with ⟨x, hx, hxcs⟩
    rcases List.mem_map.mp hx with ⟨f, hf, hxf⟩
    have hfm : f ∈ ins0.features.map Prod.fst := hperm.mem_iff.mp hf
    rw [← hxcs, ← hxf, String.data_append] at hmem2
    rcases List.mem_append.mp hmem2 with hc | hc
    · exact absurd hc (by decide)
    · exact hnl f hfm hc

theorem to_libsvm_header_line_witness :
    ∃ names : List String,
      names.Perm ((Instance.features
        { id := "1", features := [("b", .str "1"), ("a", .str "2")] }).map Prod.fst) ∧
      List.Sorted (fun a b => strLe a b = true) names ∧
      firstLine (Instances.to_libsvm
          [("1", { id := "1", features := [("b", .str "1"), ("a", .str "2")] })]
          none "").content =
        "# target instance_Id" ++ String.join (names.map (fun f => " " ++ f)) :=
  to_libsvm_header_line
    [("1", { id := "1", features := [("b", .str "1"), ("a", .str "2")] })] none ""
    { id := "1", features := [("b", .str "1"), ("a", .str "2")] } [] rfl
    (by decide) (by decide)

/-! ## Claim C5: structured-record round trip -/

theorem foldl_alSet_fresh {β : Type} (key : Instance → String) (val : Instance → β)
    (l : List Instance) (acc : List (String × β))
    (hdisj : ∀ g ∈ l, key g ∉ acc.map Prod.fst)
    (hnd : (l.map key).Nodup) :
    l.foldl (fun a g => alSet a (key g) (val g)) acc =
      acc ++ l.map (fun g => (key g, val g)) := by
  induction l generalizing acc with
  | nil => simp
  | cons x xs ih =>
    simp only [List.map_cons, List.nodup_cons] at hnd
    rw [List.foldl_cons, alSet_of_not_mem acc (key x) (val x) (hdisj x (by simp)),
      ih (acc ++ [(key x, val x)]) ?_ hnd.2]
    · simp
    · intro g hg
      rw [List.map_append, List.mem_append]
      push_neg
      refine ⟨hdisj g (by simp [hg]), ?_⟩
      simp only [List.map_cons, List.map_nil, List.mem_singleton]
      intro hk
      exact hnd.1 (hk ▸ List.mem_map.mpr ⟨g, hg, rfl⟩)

theorem instance_from_json_to_json (ins : Instance) :
    Instance.from_json ins.to_json.1 ins.to_json.2 = ins := by
  cases ins with
  | mk id ps fs tg sc =>
    cases ps <;> cases fs <;> simp [Instance.to_json, Instance.from_json]

/-- C5: for every collection (whose keys are the instance ids, as every
constructor of the class guarantees), loading the structured-record form
produced by the structured export reproduces the collection exactly — same
ids and, per id, the same properties, features, target and score. -/
theorem from_json_to_json_roundtrip (s : Instances)
    (hnd : (s.map Prod.fst).Nodup)
    (hid : ∀ p ∈ s, (p.2).id = p.1) :
    Instances.from_json (Instances.to_json s) = s := by
  have hkeys : ((s.map Prod.snd).map (fun ins => ins.to_json.1)) = s.map Prod.fst := by
    rw [List.map_map]
    exact List.map_congr_left (fun p hp => hid p hp)
  have h1 : Instances.to_json s = s.map (fun p => (p.1, (p.2).to_json.2)) := by
    unfold Instances.to_json Instances.get_all
    rw [foldl_alSet_fresh (fun ins => ins.to_json.1) (fun ins => ins.to_json.2)
      (s.map Prod.snd) [] (by simp) (by rw [hkeys]; exact hnd)]
    rw [List.nil_append, List.map_map]
    refine List.map_congr_left (fun p hp => ?_)
    rw [show p.1 = (p.2).to_json.1 from (hid p hp).symm]
    exact Prod.mk.eta.symm
  unfold Instances.from_json Instances.ofList Instances.append_instances
  rw [h1, List.map_map]
  have h2 : (s.map (fun p => Instance.from_json (p.1, (p.2).to_json.2).1
      (p.1, (p.2).to_json.2).2)) = s.map Prod.snd := by
    refine List.map_congr_left (fun p hp => ?_)
    have := instance_from_json_to_json p.2
    rwa [show (p.2).to_json.1 = p.1 from hid p hp] at this
  rw [show ((fun q : String × StructRecord => Instance.from_json q.1 q.2) ∘
      (fun p : String × Instance => (p.1, (p.2).to_json.2))) =
      (fun p : String × Instance => Instance.from_json (p.1, (p.2).to_json.2).1
        (p.1, (p.2).to_json.2).2) from rfl, h2]
  have hkeys2 : (s.map Prod.snd).map (fun p : Instance => p.id) = s.map Prod.fst := by
    rw [List.map_map]
    exact List.map_congr_left (fun p hp => hid p hp)
  have h3 : (s.map Prod.snd).foldl Instances.add_instance [] =
      [] ++ (s.map Prod.snd).map (fun i => (i.id, i)) :=
    foldl_alSet_fresh Instance.id (fun i => i) (s.map Prod.snd) [] (by simp)
      (by rw [hkeys2]; exact hnd)
  rw [h3, List.nil_append, List.map_map]
  refine (List.map_congr_left (fun p hp => ?_)).trans (List.map_id s)
  simp [hid p hp]

theorem from_json_to_json_roundtrip_witness :
    Instances.from_json (Instances.to_json
      [("a", { id := "a", properties := [("p", .str "v")], target := some (.str "t") }),
       ("b", { id := "b", features := [("f", .str "3")], score := some (2 : Rat) })]) =
      [("a", { id := "a", properties := [("p", .str "v")], target := some (.str "t") }),
       ("b", { id := "b", features := [("f", .str "3")], score := some (2 : Rat) })] :=
  from_json_to_json_roundtrip _ (by decide) (by decide)
/-! ## Claim C9: `add_qids` -/

theorem idxOfV_cons_self (v : Option Val) (l : List (Option Val)) :
    idxOfV v (v :: l) = 0 := by
  simp [idxOfV]

theorem idxOfV_append_of_mem (v : Option Val) (l1 l2 : List (Option Val))
    (h : v ∈ l1) : idxOfV v (l1 ++ l2) = idxOfV v l1 := by
  induction l1 with
  | nil => simp at h
  | cons x xs ih =>
    by_cases hx : x = v
    · simp [idxOfV, hx]
    · have h2 : v ∈ xs := by
        rcases List.mem_cons.mp h with h1 | h1
        · exact absurd h1.symm hx
        · exact h1
      simp [idxOfV, hx, ih h2]

theorem idxOfV_append_of_not_mem (v : Option Val) (l1 l2 : List (Option Val))
    (h : v ∉ l1) : idxOfV v (l1 ++ l2) = l1.length + idxOfV v l2 := by
  induction l1 with
  | nil => simp
  | cons x xs ih =>
    simp only [List.mem_cons, not_or] at h
    simp [idxOfV, Ne.symm h.1, ih h.2]
    omega

theorem idxOfV_lt_length (v : Option Val) (l : List (Option Val)) (h : v ∈ l) :
    idxOfV v l < l.length := by
  induction l with
  | nil => simp at h
  | cons x xs ih =>
    by_cases hx : x = v
    · simp [idxOfV, hx]
    · have h2 : v ∈ xs := by
        rcases List.mem_cons.mp h with h1 | h1
        · exact absurd h1.symm hx
        · exact h1
      simp only [idxOfV, if_neg hx, List.length_cons]
      exact Nat.succ_lt_succ (ih h2)

theorem idxOfV_get_of_nodup (l : List (Option Val)) (hnd : l.Nodup)
    (j : Nat) (hj : j < l.length) : idxOfV (l.get ⟨j, hj⟩) l = j := by
  induction l generalizing j with
  | nil => simp at hj
  | cons x xs ih =>
    simp only [List.nodup_cons] at hnd
    cases j with
    | zero => simp [idxOfV]
    | succ n =>
      have hget : (x :: xs).get ⟨n + 1, hj⟩ = xs.get ⟨n, by simpa using hj⟩ := rfl
      rw [hget]
      have hxne : x ≠ xs.get ⟨n, by simpa using hj⟩ := by
        intro hx
        exact hnd.1 (hx ▸ List.get_mem xs n (by simpa using hj))
      simp only [idxOfV, if_neg hxne]
      rw [ih hnd.2 n (by simpa using hj)]

theorem numberedFrom_length (n : Int) (l : List (Option Val)) :
    (numberedFrom n l).length = l.length := by
  induction l generalizing n with
  | nil => rfl
  | cons x xs ih => simp [numberedFrom, ih]

theorem numberedFrom_keys (n : Int) (l : List (Option Val)) :
    (numberedFrom n l).map Prod.fst = l := by
  induction l generalizing n with
  | nil => rfl
  | cons x xs ih => simp [numberedFrom, ih]

theorem numberedFrom_append_single (n : Int) (l : List (Option Val))
    (v : Option Val) :
    numberedFrom n (l ++ [v]) = numberedFrom n l ++ [(v, n + l.length + 1)] := by
  induction l generalizing n with
  | nil => simp [numberedFrom]
  | cons x xs ih =>
    rw [List.cons_append,
      show numberedFrom n (x :: (xs ++ [v])) =
        (x, n + 1) :: numberedFrom (n + 1) (xs ++ [v]) from rfl,
      show numberedFrom n (x :: xs) =
        (x, n + 1) :: numberedFrom (n + 1) xs from rfl,
      ih (n + 1), List.cons_append, List.length_cons]
    have harith : (n + 1) + (xs.length : Int) + 1 =
        n + ((xs.length + 1 : Nat) : Int) + 1 := by
      push_cast
      ring
    rw [harith]

theorem alGet_numberedFrom_of_mem (n : Int) (seen : List (Option Val))
    (v : Option Val) (hm : v ∈ seen) :
    alGet (numberedFrom n seen) v = some (n + (idxOfV v seen : Int) + 1) := by
  induction seen generalizing n with
  | nil => simp at hm
  | cons x xs ih =>
    by_cases hx : x = v
    · subst hx
      simp [numberedFrom, alGet, idxOfV]
    · have hm2 : v ∈ xs := by
        rcases List.mem_cons.mp hm with h | h
        · exact absurd h.symm hx
        · exact h
      rw [show numberedFrom n (x :: xs) = (x, n + 1) :: numberedFrom (n + 1) xs
          from rfl]
      rw [show alGet ((x, n + 1) :: numberedFrom (n + 1) xs) v =
          alGet (numberedFrom (n + 1) xs) v by simp [alGet, hx]]
      rw [ih (n + 1) hm2]
      simp only [idxOfV, if_neg hx, Option.some.injEq]
      push_cast
      ring

theorem alGet_numberedFrom_of_not_mem (n : Int) (seen : List (Option Val))
    (v : Option Val) (hm : v ∉ seen) :
    alGet (numberedFrom n seen) v = none := by
  induction seen generalizing n with
  | nil => rfl
  | cons x xs ih =>
    simp only [List.mem_cons, not_or] at hm
    rw [show numberedFrom n (x :: xs) = (x, n + 1) :: numberedFrom (n + 1) xs
        from rfl]
    rw [show alGet ((x, n + 1) :: numberedFrom (n + 1) xs) v =
        alGet (numberedFrom (n + 1) xs) v by simp [alGet, Ne.symm hm.1]]
    exact ih (n + 1) hm.2

theorem addQidsGo_spec (prop : String) (l : Instances) (seen : List (Option Val))
    (hnd : seen.Nodup) :
    addQidsGo prop (numberedFrom 0 seen) l =
      l.map (fun p => (p.1, (p.2).add_property "q_id"
        (.intv ((idxOfV ((p.2).get_property prop)
          (seen ++ firstDedupFrom seen
            (l.map (fun q => (q.2).get_property prop))) : Int) + 1)))) := by
  induction l generalizing seen with
  | nil => rfl
  | cons p rest ih =>
    rcases p with ⟨k, ins⟩
    by_cases hm : ins.get_property prop ∈ seen
    · rw [show addQidsGo prop (numberedFrom 0 seen) ((k, ins) :: rest) =
          (match alGet (numberedFrom 0 seen) (ins.get_property prop) with
           | some q_id =>
               (k, ins.add_property "q_id" (.intv q_id)) ::
                 addQidsGo prop (numberedFrom 0 seen) rest
           | none =>
               (k, ins.add_property "q_id"
                   (.intv ((numberedFrom 0 seen).length + 1))) ::
                 addQidsGo prop
                   (alSet (numberedFrom 0 seen) (ins.get_property prop)
                     ((numberedFrom 0 seen).length + 1)) rest) from rfl]
      rw [alGet_numberedFrom_of_mem 0 seen _ hm]
      simp only [List.map_cons, firstDedupFrom, if_pos hm]
      refine List.cons_eq_cons.mpr ⟨?_, ih seen hnd⟩
      rw [idxOfV_append_of_mem _ _ _ hm]
      norm_num
    · rw [show addQidsGo prop (numberedFrom 0 seen) ((k, ins) :: rest) =
          (match alGet (numberedFrom 0 seen) (ins.get_property prop) with
           | some q_id =>
               (k, ins.add_property "q_id" (.intv q_id)) ::
                 addQidsGo prop (numberedFrom 0 seen) rest
           | none =>
               (k, ins.add_property "q_id"
                   (.intv ((numberedFrom 0 seen).length + 1))) ::
                 addQidsGo prop
                   (alSet (numberedFrom 0 seen) (ins.get_property prop)
                     ((numberedFrom 0 seen).length + 1)) rest) from rfl]
      rw [alGet_numberedFrom_of_not_mem 0 seen _ hm]
      simp only [List.map_cons, firstDedupFrom, if_neg hm]
      have hset : alSet (numberedFrom 0 seen) (ins.get_property prop)
          (((numberedFrom 0 seen).length : Int) + 1) =
          numberedFrom 0 (seen ++ [ins.get_property prop]) := by
        rw [alSet_of_not_mem _ _ _ (by rw [numberedFrom_keys]; exact hm),
          numberedFrom_append_single, numberedFrom_length]
        norm_num
      refine List.cons_eq_cons.mpr ⟨?_, ?_⟩
      · have hidx : (idxOfV (ins.get_property prop)
            (seen ++ (ins.get_property prop) ::
              firstDedupFrom (seen ++ [ins.get_property prop])
                (rest.map (fun q => (q.2).get_property prop))) : Int) =
            (seen.length : Int) := by
          rw [idxOfV_append_of_not_mem _ _ _ hm, idxOfV_cons_self]
          norm_num
        rw [hidx, numberedFrom_length]
      · rw [hset, ih (seen ++ [ins.get_property prop])
          (by simp [List.nodup_append, hnd, hm])]
        refine List.map_congr_left (fun q hq => ?_)
        rw [show seen ++ (ins.get_property prop) ::
            firstDedupFrom (seen ++ [ins.get_property prop])
              (rest.map (fun r => (r.2).get_property prop)) =
            (seen ++ [ins.get_property prop]) ++
              firstDedupFrom (seen ++ [ins.get_property prop])
                (rest.map (fun r => (r.2).get_property prop)) by simp]

theorem mem_firstDedupFrom (l : List (Option Val)) (seen : List (Option Val))
    (x : Option Val) :
    x ∈ firstDedupFrom seen l ↔ (x ∈ l ∧ x ∉ seen) := by
  induction l generalizing seen with
  | nil => simp [firstDedupFrom]
  | cons y ys ih =>
    by_cases hy : y ∈ seen
    · rw [show firstDedupFrom seen (y :: ys) = firstDedupFrom seen ys by
        simp [firstDedupFrom, hy]]
      rw [ih seen]
      constructor
      · rintro ⟨h1, h2⟩
        exact ⟨by simp [h1], h2⟩
      · rintro ⟨h1, h2⟩
        rcases List.mem_cons.mp h1 with h3 | h3
        · exact absurd (h3 ▸ hy) h2
        · exact ⟨h3, h2⟩
    · rw [show firstDedupFrom seen (y :: ys) =
          y :: firstDedupFrom (seen ++ [y]) ys by simp [firstDedupFrom, hy]]
      constructor
      · intro h
        rcases List.mem_cons.mp h with h1 | h1
        · exact ⟨by simp [h1], h1 ▸ hy⟩
        · rcases (ih (seen ++ [y])).mp h1 with ⟨h2, h3⟩
          simp only [List.mem_append, List.mem_singleton, not_or] at h3
          exact ⟨by simp [h2], h3.1⟩
      · rintro ⟨h1, h2⟩
        by_cases hxy : x = y
        · simp [hxy]
        · rcases List.mem_cons.mp h1 with h3 | h3
          · exact absurd h3 hxy
          · refine List.mem_cons.mpr (Or.inr ((ih (seen ++ [y])).mpr ⟨h3, ?_⟩))
            simp [h2, hxy]

theorem nodup_firstDedupFrom (l : List (Option Val)) (seen : List (Option Val)) :
    (firstDedupFrom seen l).Nodup := by
  induction l generalizing seen with
  | nil => simp [firstDedupFrom]
  | cons y ys ih =>
    by_cases hy : y ∈ seen
    · rw [show firstDedupFrom seen (y :: ys) = firstDedupFrom seen ys by
        simp [firstDedupFrom, hy]]
      exact ih seen
    · rw [show firstDedupFrom seen (y :: ys) =
          y :: firstDedupFrom (seen ++ [y]) ys by simp [firstDedupFrom, hy]]
      refine List.nodup_cons.mpr ⟨?_, ih (seen ++ [y])⟩
      intro hmem
      rcases (mem_firstDedupFrom ys (seen ++ [y]) y).mp hmem with ⟨_, h2⟩
      exact h2 (by simp)

/-- C9: `add_qids` rewrites each instance in place, storing under the
reserved property name `q_id` the integer `i + 1` where `i` is the position
of that instance's property value in the first-encounter order of the `N`
distinct values; thus the assigned integers are exactly `1..N`, every
instance sharing a value gets the same integer, and nothing else of any
instance (id, features, target, score, other properties) changes. -/
theorem add_qids_assigns_sequential_ids (s : Instances) (prop : String) :
    (Instances.add_qids s prop =
      s.map (fun p => (p.1, (p.2).add_property "q_id"
        (.intv ((idxOfV ((p.2).get_property prop)
          (firstDedupFrom []
            (s.map (fun q => (q.2).get_property prop))) : Int) + 1))))) ∧
    (∀ p ∈ s,
        1 ≤ (idxOfV ((p.2).get_property prop)
            (firstDedupFrom []
              (s.map (fun q => (q.2).get_property prop))) : Int) + 1 ∧
        (idxOfV ((p.2).get_property prop)
            (firstDedupFrom []
              (s.map (fun q => (q.2).get_property prop))) : Int) + 1 ≤
          ((firstDedupFrom []
            (s.map (fun q => (q.2).get_property prop))).length : Int)) ∧
    (∀ j : Nat,
        j < (firstDedupFrom [] (s.map (fun q => (q.2).get_property prop))).length →
        ∃ p ∈ s, idxOfV ((p.2).get_property prop)
          (firstDedupFrom [] (s.map (fun q => (q.2).get_property prop))) = j) ∧
    (∀ (ins : Instance) (v : Val),
        (ins.add_property "q_id" v).id = ins.id ∧
        (ins.add_property "q_id" v).features = ins.features ∧
        (ins.add_property "q_id" v).target = ins.target ∧
        (ins.add_property "q_id" v).score = ins.score ∧
        ∀ name : String, name ≠ "q_id" →
          (ins.add_property "q_id" v).get_property name = ins.get_property name) := by
  refine ⟨?_, ?_, ?_, ?_⟩
  · have h := addQidsGo_spec prop s [] List.nodup_nil
    simpa [Instances.add_qids] using h
  · intro p hp
    have hv : (p.2).get_property prop ∈
        firstDedupFrom [] (s.map (fun q => (q.2).get_property prop)) :=
      (mem_firstDedupFrom _ _ _).mpr
        ⟨List.mem_map.mpr ⟨p, hp, rfl⟩, by simp⟩
    have hlt := idxOfV_lt_length _ _ hv
    omega
  · intro j hj
    have hget := List.get_mem
      (firstDedupFrom [] (s.map (fun q => (q.2).get_property prop))) j hj
    rcases (mem_firstDedupFrom _ _ _).mp hget with ⟨hmem, _⟩
    rcases List.mem_map.mp hmem with ⟨p, hp, hvp⟩
    exact ⟨p, hp, by rw [hvp]; exact idxOfV_get_of_nodup _ (nodup_firstDedupFrom _ _) j hj⟩
  · intro ins v
    refine ⟨rfl, rfl, rfl, rfl, fun name hname => ?_⟩
    exact alGet_alSet_ne ins.properties "q_id" name v hname

/-! ## Claims C3 and C4: `to_treceval` -/

theorem scoreStep_mono (qp dp : String) (q d : Option Val) (init : Option Rat)
    (x : Instance) (m0 : Rat) (h : init = some m0) :
    ∃ m1, scoreStep qp dp q d init x = some m1 ∧ m0 ≤ m1 := by
  subst h
  cases hsc : x.score with
  | none => exact ⟨m0, by simp [scoreStep, hsc], le_refl m0⟩
  | some sc =>
    by_cases hqd : x.get_property qp = q ∧ x.get_property dp = d
    · by_cases hlt : m0 < sc
      · exact ⟨sc, by simp [scoreStep, hsc, hqd, hlt], le_of_lt hlt⟩
      · exact ⟨m0, by simp [scoreStep, hsc, hqd, hlt], le_refl m0⟩
    · exact ⟨m0, by simp [scoreStep, hsc, hqd], le_refl m0⟩

theorem scoreStep_match_ge (qp dp : String) (q d : Option Val) (init : Option Rat)
    (x : Instance) (hq : x.get_property qp = q) (hd : x.get_property dp = d)
    (sc : Rat) (hsc : x.score = some sc) :
    ∃ m1, scoreStep qp dp q d init x = some m1 ∧ sc ≤ m1 := by
  cases init with
  | none => exact ⟨sc, by simp [scoreStep, hsc, hq, hd], le_refl sc⟩
  | some m0 =>
    by_cases hlt : m0 < sc
    · exact ⟨sc, by simp [scoreStep, hsc, hq, hd, hlt], le_refl sc⟩
    · exact ⟨m0, by simp [scoreStep, hsc, hq, hd, hlt], le_of_not_lt hlt⟩

theorem fold_scoreStep_some_mono (qp dp : String) (q d : Option Val)
    (l : List Instance) (init : Option Rat) (m0 : Rat) (h : init = some m0) :
    ∃ m, l.foldl (scoreStep qp dp q d) init = some m ∧ m0 ≤ m := by
  induction l generalizing init m0 with
  | nil => exact ⟨m0, by simp [h], le_refl m0⟩
  | cons x xs ih =>
    rcases scoreStep_mono qp dp q d init x m0 h with ⟨m1, hstep, hle1⟩
    rcases ih (scoreStep qp dp q d init x) m1 hstep with ⟨m, hfold, hle2⟩
    exact ⟨m, by simpa [List.foldl_cons] using hfold, le_trans hle1 hle2⟩

theorem fold_scoreStep_some_src (qp dp : String) (q d : Option Val)
    (l : List Instance) (init : Option Rat) (m : Rat)
    (h : l.foldl (scoreStep qp dp q d) init = some m) :
    init = some m ∨ ∃ ins ∈ l, ins.get_property qp = q ∧
      ins.get_property dp = d ∧ ins.score = some m := by
  induction l generalizing init with
  | nil => exact Or.inl (by simpa using h)
  | cons x xs ih =>
    rw [List.foldl_cons] at h
    rcases ih (scoreStep qp dp q d init x) h with h1 | h1
    · cases hsc : x.score with
      | none =>
        left
        rw [show scoreStep qp dp q d init x = init by simp [scoreStep, hsc]] at h1
        exact h1
      | some sc =>
        by_cases hqd : x.get_property qp = q ∧ x.get_property dp = d
        · cases hinit : init with
          | none =>
            right
            refine ⟨x, by simp, hqd.1, hqd.2, ?_⟩
            rw [show scoreStep qp dp q d init x = some sc by
              simp [scoreStep, hsc, hqd, hinit]] at h1
            rw [hsc, h1]
          | some m0 =>
            by_cases hlt : m0 < sc
            · right
              refine ⟨x, by simp, hqd.1, hqd.2, ?_⟩
              rw [show scoreStep qp dp q d init x = some sc by
                simp [scoreStep, hsc, hqd, hinit, hlt]] at h1
              rw [hsc, h1]
            · left
              rw [show scoreStep qp dp q d init x = some m0 by
                simp [scoreStep, hsc, hqd, hinit, hlt]] at h1
              exact h1
        · left
          rw [show scoreStep qp dp q d init x = init by
            simp [scoreStep, hsc, hqd]] at h1
          exact h1
    · rcases h1 with ⟨ins, hmem, h2, h3, h4⟩
      exact Or.inr ⟨ins, by simp [hmem], h2, h3, h4⟩

theorem fold_scoreStep_ub (qp dp : String) (q d : Option Val)
    (l : List Instance) (init : Option Rat) (m : Rat)
    (h : l.foldl (scoreStep qp dp q d) init = some m) :
    (∀ m0, init = some m0 → m0 ≤ m) ∧
    (∀ ins ∈ l, ins.get_property qp = q → ins.get_property dp = d →
      ∀ sc, ins.score = some sc → sc ≤ m) := by
  induction l generalizing init with
  | nil =>
    refine ⟨fun m0 h0 => ?_, by simp⟩
    simp only [List.foldl_nil] at h
    rw [h0] at h
    exact le_of_eq (Option.some.injEq _ _ ▸ h)
  | cons x xs ih =>
    rw [List.foldl_cons] at h
    rcases ih (scoreStep qp dp q d init x) h with ⟨hinit, hrest⟩
    constructor
    · intro m0 h0
      rcases scoreStep_mono qp dp q d init x m0 h0 with ⟨m1, hstep, hle⟩
      exact le_trans hle (hinit m1 hstep)
    · intro ins hmem hq hd sc hsc
      rcases List.mem_cons.mp hmem with h1 | h1
      · subst h1
        rcases scoreStep_match_ge qp dp q d init ins hq hd sc hsc with ⟨m1, hstep, hle⟩
        exact le_trans hle (hinit m1 hstep)
      · exact hrest ins h1 hq hd sc hsc

theorem fold_scoreStep_isSome (qp dp : String) (q d : Option Val)
    (l : List Instance) (init : Option Rat) (ins : Instance) (hins : ins ∈ l)
    (hq : ins.get_property qp = q) (hd : ins.get_property dp = d)
    (sc : Rat) (hsc : ins.score = some sc) :
    (l.foldl (scoreStep qp dp q d) init).isSome := by
  induction l generalizing init with
  | nil => simp at hins
  | cons x xs ih =>
    rw [List.foldl_cons]
    rcases List.mem_cons.mp hins with h1 | h1
    · subst h1
      rcases scoreStep_match_ge qp dp q d init ins hq hd sc hsc with ⟨m1, hstep, _⟩
      rw [hstep]
      rcases fold_scoreStep_some_mono qp dp q d xs (some m1) m1 rfl with ⟨m, hfold, _⟩
      simp [hfold]
    · exact ih (scoreStep qp dp q d init x) h1

theorem uStep_lookup (qp dp : String)
    (acc : List (Option Val × List (Option Val × Rat))) (ins : Instance)
    (q d : Option Val) :
    alGet ((alGet (uStep qp dp acc ins) q).getD []) d =
      scoreStep qp dp q d (alGet ((alGet acc q).getD []) d) ins := by
  cases hsc : ins.score with
  | none => simp [uStep, scoreStep, hsc]
  | some sc =>
    have hupd : ∀ inner,
        alGet ((alGet (alSet acc (ins.get_property qp) inner) q).getD []) d =
          if ins.get_property qp = q then alGet inner d
          else alGet ((alGet acc q).getD []) d := by
      intro inner
      by_cases hq : ins.get_property qp = q
      · rw [if_pos hq, hq, alGet_alSet_self]
        rfl
      · rw [if_neg hq, alGet_alSet_ne acc _ q inner (Ne.symm hq)]
    cases hold : alGet ((alGet acc (ins.get_property qp)).getD [])
        (ins.get_property dp) with
    | none =>
      rw [show uStep qp dp acc ins =
          alSet acc (ins.get_property qp)
            (alSet ((alGet acc (ins.get_property qp)).getD [])
              (ins.get_property dp) sc) by simp [uStep, hsc, hold]]
      rw [hupd]
      by_cases hq : ins.get_property qp = q
      · rw [if_pos hq]
        by_cases hd : ins.get_property dp = d
        · rw [hd, alGet_alSet_self]
          rw [← hq, ← hd, hold]
          simp [scoreStep, hsc]
        · rw [alGet_alSet_ne _ _ d sc (Ne.symm hd)]
          simp [scoreStep, hsc, hq, hd]
      · rw [if_neg hq]
        simp [scoreStep, hsc, hq]
    | some m =>
      by_cases hlt : m < sc
      · rw [show uStep qp dp acc ins =
            alSet acc (ins.get_property qp)
              (alSet ((alGet acc (ins.get_property qp)).getD [])
                (ins.get_property dp) sc) by simp [uStep, hsc, hold, hlt]]
        rw [hupd]
        by_cases hq : ins.get_property qp = q
        · rw [if_pos hq]
          by_cases hd : ins.get_property dp = d
          · rw [hd, alGet_alSet_self]
            rw [← hq, ← hd, hold]
            simp [scoreStep, hsc, hlt]
          · rw [alGet_alSet_ne _ _ d sc (Ne.symm hd)]
            simp [scoreStep, hsc, hq, hd]
        · rw [if_neg hq]
          simp [scoreStep, hsc, hq]
      · rw [show uStep qp dp acc ins = acc by simp [uStep, hsc, hold, hlt]]
        by_cases hq : ins.get_property qp = q
        · by_cases hd : ins.get_property dp = d
          · rw [← hq, ← hd, hold]
            simp [scoreStep, hsc, hq, hd, hlt]
          · simp [scoreStep, hsc, hq, hd]
        · simp [scoreStep, hsc, hq]

theorem uStep_nodup (qp dp : String)
    (acc : List (Option Val × List (Option Val × Rat))) (ins : Instance)
    (h1 : (acc.map Prod.fst).Nodup)
    (h2 : ∀ g ∈ acc, (g.2.map Prod.fst).Nodup) :
    ((uStep qp dp acc ins).map Prod.fst).Nodup ∧
    (∀ g ∈ uStep qp dp acc ins, (g.2.map Prod.fst).Nodup) := by
  have hinner : (((alGet acc (ins.get_property qp)).getD []).map Prod.fst).Nodup := by
    cases hg : alGet acc (ins.get_property qp) with
    | none => simp
    | some docs =>
      simpa using h2 (ins.get_property qp, docs) (mem_of_alGet_eq_some _ _ _ hg)
  have hset : ∀ inner : List (Option Val × Rat), (inner.map Prod.fst).Nodup →
      ((alSet acc (ins.get_property qp) inner).map Prod.fst).Nodup ∧
      (∀ g ∈ alSet acc (ins.get_property qp) inner, (g.2.map Prod.fst).Nodup) := by
    intro inner hin
    refine ⟨alSet_keys_nodup acc _ inner h1, fun g hg => ?_⟩
    rcases mem_alSet acc _ inner g hg with hg1 | hg1
    · rw [hg1]
      exact hin
    · exact h2 g hg1
  cases hsc : ins.score with
  | none => exact ⟨by simpa [uStep, hsc] using h1, by simpa [uStep, hsc] using h2⟩
  | some sc =>
    cases hold : alGet ((alGet acc (ins.get_property qp)).getD [])
        (ins.get_property dp) with
    | none =>
      rw [show uStep qp dp acc ins =
          alSet acc (ins.get_property qp)
            (alSet ((alGet acc (ins.get_property qp)).getD [])
              (ins.get_property dp) sc) by simp [uStep, hsc, hold]]
      exact hset _ (alSet_keys_nodup _ _ _ hinner)
    | some m =>
      by_cases hlt : m < sc
      · rw [show uStep qp dp acc ins =
            alSet acc (ins.get_property qp)
              (alSet ((alGet acc (ins.get_property qp)).getD [])
                (ins.get_property dp) sc) by simp [uStep, hsc, hold, hlt]]
        exact hset _ (alSet_keys_nodup _ _ _ hinner)
      · rw [show uStep qp dp acc ins = acc by simp [uStep, hsc, hold, hlt]]
        exact ⟨h1, h2⟩

theorem uFold_spec (qp dp : String) (l : List Instance)
    (acc : List (Option Val × List (Option Val × Rat)))
    (h1 : (acc.map Prod.fst).Nodup)
    (h2 : ∀ g ∈ acc, (g.2.map Prod.fst).Nodup) :
    ((l.foldl (uStep qp dp) acc).map Prod.fst).Nodup ∧
    (∀ g ∈ l.foldl (uStep qp dp) acc, (g.2.map Prod.fst).Nodup) ∧
    ∀ q d, alGet ((alGet (l.foldl (uStep qp dp) acc) q).getD []) d =
      l.foldl (scoreStep qp dp q d) (alGet ((alGet acc q).getD []) d) := by
  induction l generalizing acc with
  | nil => exact ⟨h1, h2, fun q d => rfl⟩
  | cons x xs ih =>
    rcases uStep_nodup qp dp acc x h1 h2 with ⟨h1', h2'⟩
    rcases ih (uStep qp dp acc x) h1' h2' with ⟨ia, ib, ic⟩
    refine ⟨by simpa [List.foldl_cons] using ia,
      by simpa [List.foldl_cons] using ib, fun q d => ?_⟩
    rw [List.foldl_cons, List.foldl_cons, ic q d, uStep_lookup]

theorem uniqueEntries_spec (s : Instances) (qp dp : String) :
    ((uniqueEntries s qp dp).map Prod.fst).Nodup ∧
    (∀ g ∈ uniqueEntries s qp dp, (g.2.map Prod.fst).Nodup) ∧
    ∀ q d, alGet ((alGet (uniqueEntries s qp dp) q).getD []) d =
      bestScoreF qp dp q d (Instances.get_all s) := by
  rcases uFold_spec qp dp (Instances.get_all s) [] (by simp) (by simp)
    with ⟨h1, h2, h3⟩
  exact ⟨h1, h2, fun q d => by
    rw [show uniqueEntries s qp dp = (Instances.get_all s).foldl (uStep qp dp) []
      from rfl, h3 q d]
    rfl⟩

theorem mem_trecevalRows_elim (s : Instances) (qp dp : String) (r : TrecRow)
    (hr : r ∈ trecevalRows s qp dp) :
    ∃ docs, (r.qid, docs) ∈ uniqueEntries s qp dp ∧ (r.docid, r.score) ∈ docs := by
  rcases List.mem_flatMap.mp hr with ⟨g, hg, hrow⟩
  rcases List.mem_map.mp hrow with ⟨p, hp, hpr⟩
  rcases List.mem_map.mp hg with ⟨g0, hg0, hgg⟩
  refine ⟨g0.2, ?_, ?_⟩
  · have hq : r.qid = g0.1 := by rw [← hpr, ← hgg]
    rw [hq, Prod.mk.eta]
    exact (List.perm_insertionSort
      (fun a b => ovLeB a.1 b.1 = true) (uniqueEntries s qp dp)).subset hg0
  · have hmem : p.2 ∈ g.2 :=
      List.getElem?_mem (List.mem_enum_iff_getElem?.mp hp)
    have hds : (r.docid, r.score) = p.2 := by rw [← hpr]
    rw [hds]
    have hg2 : g.2 = List.insertionSort
        (fun a b : Option Val × Rat => b.2 ≤ a.2) g0.2 := by rw [← hgg]
    rw [hg2] at hmem
    exact (List.perm_insertionSort _ g0.2).subset hmem

theorem mem_trecevalRows_intro (s : Instances) (qp dp : String)
    (q d : Option Val) (docs : List (Option Val × Rat)) (sc : Rat)
    (hq : (q, docs) ∈ uniqueEntries s qp dp) (hd : (d, sc) ∈ docs) :
    ∃ r ∈ trecevalRows s qp dp, r.qid = q ∧ r.docid = d ∧ r.score = sc := by
  have hg : (q, List.insertionSort (fun a b : Option Val × Rat => b.2 ≤ a.2) docs) ∈
      rankedGroups s qp dp := by
    refine List.mem_map.mpr ⟨(q, docs), ?_, rfl⟩
    exact (List.perm_insertionSort
      (fun a b => ovLeB a.1 b.1 = true) (uniqueEntries s qp dp)).mem_iff.mpr hq
  have hd2 : (d, sc) ∈ List.insertionSort
      (fun a b : Option Val × Rat => b.2 ≤ a.2) docs :=
    (List.perm_insertionSort _ docs).mem_iff.mpr hd
  rcases List.getElem?_of_mem hd2 with ⟨n, hn⟩
  refine ⟨⟨q, d, n + 1, sc⟩, ?_, rfl, rfl, rfl⟩
  refine List.mem_flatMap.mpr ⟨_, hg, ?_⟩
  refine List.mem_map.mpr ⟨(n, (d, sc)), ?_, rfl⟩
  exact List.mem_enum_iff_getElem?.mpr hn

theorem flat_pairs_nodup (groups : List (Option Val × List (Option Val × Rat)))
    (h1 : (groups.map Prod.fst).Nodup)
    (h2 : ∀ g ∈ groups, (g.2.map Prod.fst).Nodup) :
    ((groups.flatMap (fun g => g.2.enum.map
        (fun p => (⟨g.1, p.2.1, p.1 + 1, p.2.2⟩ : TrecRow)))).map
      (fun r => (r.qid, r.docid))).Nodup := by
  induction groups with
  | nil => simp
  | cons g gs ih =>
    rw [List.flatMap_cons, List.map_append]
    simp only [List.map_cons, List.nodup_cons] at h1
    refine List.nodup_append.mpr ⟨?_, ?_, ?_⟩
    · have hpairs : (g.2.enum.map
          (fun p => (⟨g.1, p.2.1, p.1 + 1, p.2.2⟩ : TrecRow))).map
            (fun r => (r.qid, r.docid)) =
          (g.2.map Prod.fst).map (fun x => (g.1, x)) := by
        rw [List.map_map,
          show ((fun r : TrecRow => (r.qid, r.docid)) ∘
            (fun p : Nat × (Option Val × Rat) =>
              (⟨g.1, p.2.1, p.1 + 1, p.2.2⟩ : TrecRow))) =
            ((fun x : Option Val × Rat => (g.1, x.1)) ∘ Prod.snd) from rfl,
          ← List.map_map, List.enum_map_snd,
          show (fun x : Option Val × Rat => (g.1, x.1)) =
            ((fun d : Option Val => (g.1, d)) ∘ Prod.fst) from rfl,
          ← List.map_map]
      rw [hpairs]
      exact List.Nodup.map (fun a b hab => congrArg Prod.snd hab) (h2 g (by simp))
    · exact ih h1.2 (fun g' hg' => h2 g' (by simp [hg']))
    · intro a ha hb
      rcases List.mem_map.mp ha with ⟨r, hr, har⟩
      rcases List.mem_map.mp hr with ⟨p, _, hpr⟩
      have ha1 : a.1 = g.1 := by rw [← har, ← hpr]
      rcases List.mem_map.mp hb with ⟨r', hr', har'⟩
      rcases List.mem_flatMap.mp hr' with ⟨g', hg', hrow'⟩
      rcases List.mem_map.mp hrow' with ⟨p', _, hpr'⟩
      have ha2 : a.1 = g'.1 := by rw [← har', ← hpr']
      exact h1.1 (ha1 ▸ ha2 ▸ List.mem_map.mpr ⟨g', hg', rfl⟩)

theorem rankedGroups_eq (s : Instances) (qp dp : String) :
    rankedGroups s qp dp =
      (List.insertionSort (fun a b => ovLeB a.1 b.1 = true)
        (uniqueEntries s qp dp)).map
        (fun g => (g.1,
          List.insertionSort (fun a b : Option Val × Rat => b.2 ≤ a.2) g.2)) := rfl

theorem rankedGroups_keys_nodup (s : Instances) (qp dp : String) :
    ((rankedGroups s qp dp).map Prod.fst).Nodup := by
  rcases uniqueEntries_spec s qp dp with ⟨hnd, _, _⟩
  rw [rankedGroups_eq, List.map_map,
    show (Prod.fst ∘ (fun g : Option Val × List (Option Val × Rat) => (g.1,
      List.insertionSort (fun a b : Option Val × Rat => b.2 ≤ a.2) g.2))) =
      Prod.fst from rfl]
  exact hnd.perm
    ((List.perm_insertionSort (fun a b => ovLeB a.1 b.1 = true)
      (uniqueEntries s qp dp)).map Prod.fst).symm

theorem rankedGroups_inner_nodup (s : Instances) (qp dp : String) :
    ∀ g ∈ rankedGroups s qp dp, (g.2.map Prod.fst).Nodup := by
  rcases uniqueEntries_spec s qp dp with ⟨_, hinner, _⟩
  intro g hg
  rw [rankedGroups_eq] at hg
  rcases List.mem_map.mp hg with ⟨g0, hg0, hgg⟩
  have hg0u : g0 ∈ uniqueEntries s qp dp :=
    (List.perm_insertionSort _ _).subset hg0
  have h1 : (g0.2.map Prod.fst).Nodup := hinner g0 hg0u
  have h2 : g.2 = List.insertionSort
      (fun a b : Option Val × Rat => b.2 ≤ a.2) g0.2 := by rw [← hgg]
  rw [h2]
  exact h1.perm ((List.perm_insertionSort _ g0.2).map Prod.fst).symm

/-- Row-list level helper: `trecevalRows` holds exactly one row per
(qid, docid) pair occurring among the scored instances, carrying the
highest score among the instances sharing that pair, and unscored
instances contribute no row. The claim-level statement below additionally
accounts for the output loop's `TypeError` on non-string keys. -/
theorem trecevalRows_dedup_by_max (s : Instances) (qp dp : String) :
    ((trecevalRows s qp dp).map (fun r => (r.qid, r.docid))).Nodup ∧
    (∀ r ∈ trecevalRows s qp dp,
      (∃ ins ∈ Instances.get_all s, ins.get_property qp = r.qid ∧
        ins.get_property dp = r.docid ∧ ins.score = some r.score) ∧
      (∀ ins ∈ Instances.get_all s, ins.get_property qp = r.qid →
        ins.get_property dp = r.docid → ∀ sc, ins.score = some sc → sc ≤ r.score)) ∧
    (∀ ins ∈ Instances.get_all s, ∀ sc, ins.score = some sc →
      ∃ r ∈ trecevalRows s qp dp, r.qid = ins.get_property qp ∧
        r.docid = ins.get_property dp) := by
  rcases uniqueEntries_spec s qp dp with ⟨hnd, hinner, hbest⟩
  refine ⟨?_, ?_, ?_⟩
  · exact flat_pairs_nodup (rankedGroups s qp dp)
      (rankedGroups_keys_nodup s qp dp) (rankedGroups_inner_nodup s qp dp)
  · intro r hr
    rcases mem_trecevalRows_elim s qp dp r hr with ⟨docs, hqd, hds⟩
    have hdocs : alGet (uniqueEntries s qp dp) r.qid = some docs :=
      alGet_eq_some_of_mem _ _ _ hnd hqd
    have hscore : alGet docs r.docid = some r.score :=
      alGet_eq_some_of_mem _ _ _ (hinner (r.qid, docs) hqd) hds
    have hb : bestScoreF qp dp r.qid r.docid (Instances.get_all s) = some r.score := by
      rw [← hbest, hdocs]
      exact hscore
    constructor
    · rcases fold_scoreStep_some_src qp dp r.qid r.docid
        (Instances.get_all s) none r.score hb with h | h
      · simp at h
      · exact h
    · intro ins hm h1 h2 sc hsc
      exact (fold_scoreStep_ub qp dp r.qid r.docid _ none r.score hb).2
        ins hm h1 h2 sc hsc
  · intro ins hm sc hsc
    have hs : (bestScoreF qp dp (ins.get_property qp) (ins.get_property dp)
        (Instances.get_all s)).isSome :=
      fold_scoreStep_isSome qp dp (ins.get_property qp) (ins.get_property dp)
        (Instances.get_all s) none ins hm rfl rfl sc hsc
    rcases Option.isSome_iff_exists.mp hs with ⟨m, hm2⟩
    have hlook : alGet ((alGet (uniqueEntries s qp dp)
        (ins.get_property qp)).getD []) (ins.get_property dp) = some m := by
      rw [hbest]
      exact hm2
    cases hdq : alGet (uniqueEntries s qp dp) (ins.get_property qp) with
    | none =>
      rw [hdq] at hlook
      simp [alGet] at hlook
    | some docs =>
      rw [hdq] at hlook
      have h1 : (ins.get_property qp, docs) ∈ uniqueEntries s qp dp :=
        mem_of_alGet_eq_some _ _ _ hdq
      have h2 : (ins.get_property dp, m) ∈ docs :=
        mem_of_alGet_eq_some _ _ _ hlook
      rcases mem_trecevalRows_intro s qp dp _ _ docs m h1 h2 with ⟨r, hr, e1, e2, _⟩
      exact ⟨r, hr, e1, e2⟩

instance : IsTotal (Option Val × List (Option Val × Rat))
    (fun a b => ovLeB a.1 b.1 = true) :=
  ⟨fun a b => ovLeB_total a.1 b.1⟩

instance : IsTrans (Option Val × List (Option Val × Rat))
    (fun a b => ovLeB a.1 b.1 = true) :=
  ⟨fun a b c => ovLeB_trans a.1 b.1 c.1⟩

instance : IsTotal (Option Val × Rat) (fun a b => b.2 ≤ a.2) :=
  ⟨fun a b => le_total b.2 a.2⟩

instance : IsTrans (Option Val × Rat) (fun a b => b.2 ≤ a.2) :=
  ⟨fun _ _ _ h1 h2 => le_trans h2 h1⟩

theorem enumFrom_ranks (k : Nat) (l : List (Option Val × Rat)) :
    (List.enumFrom k l).map (fun p => p.1 + 1) = List.range' (k + 1) l.length := by
  induction l generalizing k with
  | nil => rfl
  | cons x xs ih =>
    rw [List.enumFrom_cons, List.map_cons, ih (k + 1), List.length_cons,
      List.range'_succ]

theorem filter_flat_rows (groups : List (Option Val × List (Option Val × Rat)))
    (h1 : (groups.map Prod.fst).Nodup) (g : Option Val × List (Option Val × Rat))
    (hg : g ∈ groups) :
    (groups.flatMap (fun g' => g'.2.enum.map
        (fun p => (⟨g'.1, p.2.1, p.1 + 1, p.2.2⟩ : TrecRow)))).filter
      (fun r => decide (r.qid = g.1)) =
    g.2.enum.map (fun p => (⟨g.1, p.2.1, p.1 + 1, p.2.2⟩ : TrecRow)) := by
  induction groups with
  | nil => simp at hg
  | cons g0 gs ih =>
    simp only [List.map_cons, List.nodup_cons] at h1
    rw [List.flatMap_cons, List.filter_append]
    rcases List.mem_cons.mp hg with hg1 | hg1
    · subst hg1
      have hleft : (g.2.enum.map
          (fun p => (⟨g.1, p.2.1, p.1 + 1, p.2.2⟩ : TrecRow))).filter
            (fun r => decide (r.qid = g.1)) =
          g.2.enum.map (fun p => (⟨g.1, p.2.1, p.1 + 1, p.2.2⟩ : TrecRow)) := by
        refine List.filter_eq_self.mpr (fun r hr => ?_)
        rcases List.mem_map.mp hr with ⟨p, _, hpr⟩
        simp [← hpr]
      have hright : (gs.flatMap (fun g' => g'.2.enum.map
          (fun p => (⟨g'.1, p.2.1, p.1 + 1, p.2.2⟩ : TrecRow)))).filter
            (fun r => decide (r.qid = g.1)) = [] := by
        refine List.filter_eq_nil_iff.mpr (fun r hr => ?_)
        rcases List.mem_flatMap.mp hr with ⟨g', hg', hrow⟩
        rcases List.mem_map.mp hrow with ⟨p, _, hpr⟩
        have : r.qid = g'.1 := by rw [← hpr]
        simp only [this, decide_eq_true_eq]
        intro hq
        exact h1.1 (hq ▸ List.mem_map.mpr ⟨g', hg', rfl⟩)
      rw [hleft, hright, List.append_nil]
    · have hne : g.1 ≠ g0.1 := by
        intro hq
        exact h1.1 (hq ▸ List.mem_map.mpr ⟨g, hg1, rfl⟩)
      have hleft : (g0.2.enum.map
          (fun p => (⟨g0.1, p.2.1, p.1 + 1, p.2.2⟩ : TrecRow))).filter
            (fun r => decide (r.qid = g.1)) = [] := by
        refine List.filter_eq_nil_iff.mpr (fun r hr => ?_)
        rcases List.mem_map.mp hr with ⟨p, _, hpr⟩
        have : r.qid = g0.1 := by rw [← hpr]
        simp [this, Ne.symm hne]
      rw [hleft, List.nil_append]
      exact ih h1.2 hg1

/-- C4: in the `to_treceval` output, query groups appear in ascending qid
order (strictly: the qids are distinct), each group's surviving
(docid, score) pairs appear in descending score order, and within each
group the ranks are assigned consecutively `1..N` in that order. -/
theorem to_treceval_ordering (s : Instances) (qp dp : String) :
    List.Sorted (fun a b => ovLeB a b = true)
      ((rankedGroups s qp dp).map Prod.fst) ∧
    ((rankedGroups s qp dp).map Prod.fst).Nodup ∧
    (∀ g ∈ rankedGroups s qp dp,
      List.Sorted (fun a b : Option Val × Rat => b.2 ≤ a.2) g.2 ∧
      (trecevalRows s qp dp).filter (fun r => decide (r.qid = g.1)) =
        g.2.enum.map (fun p => (⟨g.1, p.2.1, p.1 + 1, p.2.2⟩ : TrecRow)) ∧
      ((trecevalRows s qp dp).filter
        (fun r => decide (r.qid = g.1))).map TrecRow.rank =
        List.range' 1 g.2.length) := by
  refine ⟨?_, rankedGroups_keys_nodup s qp dp, ?_⟩
  · rw [rankedGroups_eq, List.map_map,
      show (Prod.fst ∘ (fun g : Option Val × List (Option Val × Rat) => (g.1,
        List.insertionSort (fun a b : Option Val × Rat => b.2 ≤ a.2) g.2))) =
        Prod.fst from rfl]
    rw [List.Sorted, List.pairwise_map]
    exact List.sorted_insertionSort (fun a b => ovLeB a.1 b.1 = true)
      (uniqueEntries s qp dp)
  · intro g hg
    have hfilter : (trecevalRows s qp dp).filter (fun r => decide (r.qid = g.1)) =
        g.2.enum.map (fun p => (⟨g.1, p.2.1, p.1 + 1, p.2.2⟩ : TrecRow)) :=
      filter_flat_rows (rankedGroups s qp dp) (rankedGroups_keys_nodup s qp dp) g hg
    refine ⟨?_, hfilter, ?_⟩
    · rw [rankedGroups_eq] at hg
      rcases List.mem_map.mp hg with ⟨g0, _, hgg⟩
      have h2 : g.2 = List.insertionSort
          (fun a b : Option Val × Rat => b.2 ≤ a.2) g0.2 := by rw [← hgg]
      rw [h2]
      exact List.sorted_insertionSort _ g0.2
    · rw [hfilter, List.map_map,
        show (TrecRow.rank ∘ (fun p : Nat × (Option Val × Rat) =>
          (⟨g.1, p.2.1, p.1 + 1, p.2.2⟩ : TrecRow))) =
          (fun p : Nat × (Option Val × Rat) => p.1 + 1) from rfl]
      exact enumFrom_ranks 0 g.2

/-! ## Claim C6: load-order commutativity and merged population -/

theorem applyParams_props_eq (params : List String) (row : Row) (ins : Instance) :
    applyParams .properties params row ins =
      { ins with properties := (params.foldl
          (fun ps param => alSet ps param (.str ((alGet row param).getD "")))
          ins.properties) } := by
  induction params generalizing ins with
  | nil => rfl
  | cons p ps ih =>
    rw [show applyParams .properties (p :: ps) row ins =
        applyParams .properties ps row (ins.add_property p
          (.str ((alGet row p).getD ""))) from rfl, ih]
    rfl

theorem applyParams_feats_eq (params : List String) (row : Row) (ins : Instance) :
    applyParams .features params row ins =
      { ins with features := (params.foldl
          (fun fs param => alSet fs param (.str ((alGet row param).getD "")))
          ins.features) } := by
  induction params generalizing ins with
  | nil => rfl
  | cons p ps ih =>
    rw [show applyParams .features (p :: ps) row ins =
        applyParams .features ps row (ins.add_feature p
          (.str ((alGet row p).getD ""))) from rfl, ih]
    rfl

theorem applyParams_target_eq (params : List String) (row : Row) (ins : Instance) :
    applyParams .target params row ins =
      { ins with target := (params.foldl
          (fun t param => some (.str ((alGet row param).getD ""))) ins.target) } := by
  induction params generalizing ins with
  | nil => rfl
  | cons p ps ih =>
    rw [show applyParams .target (p :: ps) row ins =
        applyParams .target ps row
          { ins with target := some (.str ((alGet row p).getD "")) } from rfl, ih]
    rfl

theorem rowsUpdate_props_eq (params : List String) (rows : List Row)
    (ins : Instance) :
    rowsUpdate .properties params rows ins =
      { ins with properties := (rows.foldl
          (fun ps row => params.foldl
            (fun ps param => alSet ps param (.str ((alGet row param).getD ""))) ps)
          ins.properties) } := by
  induction rows generalizing ins with
  | nil => rfl
  | cons r rs ih =>
    rw [show rowsUpdate .properties params (r :: rs) ins =
        rowsUpdate .properties params rs (applyParams .properties params r ins)
        from rfl, applyParams_props_eq, ih]
    simp [List.foldl_cons]

theorem rowsUpdate_feats_eq (params : List String) (rows : List Row)
    (ins : Instance) :
    rowsUpdate .features params rows ins =
      { ins with features := (rows.foldl
          (fun fs row => params.foldl
            (fun fs param => alSet fs param (.str ((alGet row param).getD ""))) fs)
          ins.features) } := by
  induction rows generalizing ins with
  | nil => rfl
  | cons r rs ih =>
    rw [show rowsUpdate .features params (r :: rs) ins =
        rowsUpdate .features params rs (applyParams .features params r ins)
        from rfl, applyParams_feats_eq, ih]
    simp [List.foldl_cons]

theorem rowsUpdate_target_eq (params : List String) (rows : List Row)
    (ins : Instance) :
    rowsUpdate .target params rows ins =
      { ins with target := (rows.foldl
          (fun t row => params.foldl
            (fun t param => some (.str ((alGet row param).getD ""))) t)
          ins.target) } := by
  induction rows generalizing ins with
  | nil => rfl
  | cons r rs ih =>
    rw [show rowsUpdate .target params (r :: rs) ins =
        rowsUpdate .target params rs (applyParams .target params r ins)
        from rfl, applyParams_target_eq, ih]
    simp [List.foldl_cons]

theorem applyRowsOpt_some (k : LoadKind) (params : List String) (key : String)
    (rows : List Row) (ins : Instance) :
    applyRowsOpt k params key rows (some ins) =
      some (rowsUpdate k params rows ins) := by
  induction rows generalizing ins with
  | nil => rfl
  | cons r rs ih =>
    rw [show applyRowsOpt k params key (r :: rs) (some ins) =
        applyRowsOpt k params key rs (some (applyParams k params r ins)) from rfl,
      ih]
    rfl

theorem applyRowsOpt_ne_nil (k : LoadKind) (params : List String) (key : String)
    (rows : List Row) (o : Option Instance) (hne : rows ≠ []) :
    applyRowsOpt k params key rows o =
      some (rowsUpdate k params rows (o.getD (Instance.blank key))) := by
  cases o with
  | some ins => exact applyRowsOpt_some k params key rows ins
  | none =>
    cases rows with
    | nil => exact absurd rfl hne
    | cons r rs =>
      rw [show applyRowsOpt k params key (r :: rs) none =
          applyRowsOpt k params key rs
            (some (applyParams k params r (Instance.blank key))) from rfl,
        applyRowsOpt_some]
      rfl

theorem rowsUpdate_comm (k1 k2 : LoadKind) (p1 p2 : List String)
    (rs1 rs2 : List Row) (ins : Instance) (hk : k1 ≠ k2) :
    rowsUpdate k1 p1 rs1 (rowsUpdate k2 p2 rs2 ins) =
      rowsUpdate k2 p2 rs2 (rowsUpdate k1 p1 rs1 ins) := by
  cases k1 <;> cases k2 <;> first
    | exact absurd rfl hk
    | (rw [rowsUpdate_props_eq, rowsUpdate_feats_eq, rowsUpdate_feats_eq,
        rowsUpdate_props_eq])
    | (rw [rowsUpdate_props_eq, rowsUpdate_target_eq, rowsUpdate_target_eq,
        rowsUpdate_props_eq])
    | (rw [rowsUpdate_feats_eq, rowsUpdate_props_eq, rowsUpdate_props_eq,
        rowsUpdate_feats_eq])
    | (rw [rowsUpdate_feats_eq, rowsUpdate_target_eq, rowsUpdate_target_eq,
        rowsUpdate_feats_eq])
    | (rw [rowsUpdate_target_eq, rowsUpdate_props_eq, rowsUpdate_props_eq,
        rowsUpdate_target_eq])
    | (rw [rowsUpdate_target_eq, rowsUpdate_feats_eq, rowsUpdate_feats_eq,
        rowsUpdate_target_eq])

theorem applyRowsOpt_comm (k1 k2 : LoadKind) (p1 p2 : List String) (key : String)
    (rs1 rs2 : List Row) (o : Option Instance) (hk : k1 ≠ k2) :
    applyRowsOpt k1 p1 key rs1 (applyRowsOpt k2 p2 key rs2 o) =
      applyRowsOpt k2 p2 key rs2 (applyRowsOpt k1 p1 key rs1 o) := by
  rcases eq_or_ne rs1 [] with h1 | h1
  · subst h1
    rfl
  · rcases eq_or_ne rs2 [] with h2 | h2
    · subst h2
      rfl
    · rw [applyRowsOpt_ne_nil k2 p2 key rs2 o h2,
        applyRowsOpt_some,
        applyRowsOpt_ne_nil k1 p1 key rs1 o h1,
        applyRowsOpt_some,
        rowsUpdate_comm k1 k2 p1 p2 rs1 rs2 _ hk]

theorem alGet_loadRow (k : LoadKind) (params : List String) (s : Instances)
    (row : Row) (key : String) :
    alGet (loadRow k params s row) key =
      if rowId row = key then
        some (applyParams k params row
          ((alGet s (rowId row)).getD (Instance.blank (rowId row))))
      else alGet s key := by
  by_cases h : rowId row = key
  · rw [if_pos h]
    cases hm : alGet s (rowId row) with
    | some i =>
      rw [show loadRow k params s row =
          alSet s (rowId row) (applyParams k params row i) by simp [loadRow, hm]]
      rw [← h, alGet_alSet_self]
      rfl
    | none =>
      rw [show loadRow k params s row =
          alSet s (rowId row)
            (applyParams k params row (Instance.blank (rowId row))) by
          simp [loadRow, hm]]
      rw [← h, alGet_alSet_self]
      rfl
  · rw [if_neg h]
    cases hm : alGet s (rowId row) with
    | some i =>
      rw [show loadRow k params s row =
          alSet s (rowId row) (applyParams k params row i) by simp [loadRow, hm]]
      exact alGet_alSet_ne s (rowId row) key _ (Ne.symm h)
    | none =>
      rw [show loadRow k params s row =
          alSet s (rowId row)
            (applyParams k params row (Instance.blank (rowId row))) by
          simp [loadRow, hm]]
      exact alGet_alSet_ne s (rowId row) key _ (Ne.symm h)

theorem alGet_loadRows (k : LoadKind) (params : List String) (rows : List Row)
    (s : Instances) (key : String) :
    alGet (loadRows k params rows s) key =
      applyRowsOpt k params key
        (rows.filter (fun row => decide (rowId row = key))) (alGet s key) := by
  induction rows generalizing s with
  | nil => rfl
  | cons row rest ih =>
    rw [show loadRows k params (row :: rest) s =
        loadRows k params rest (loadRow k params s row) from rfl, ih,
      List.filter_cons]
    by_cases h : rowId row = key
    · rw [if_pos (by simp [h])]
      rw [show applyRowsOpt k params key
          (row :: rest.filter (fun row => decide (rowId row = key)))
          (alGet s key) =
        applyRowsOpt k params key
          (rest.filter (fun row => decide (rowId row = key)))
          (some (applyParams k params row
            ((alGet s key).getD (Instance.blank key)))) from rfl]
      congr 1
      rw [alGet_loadRow, if_pos h, h]
    · rw [if_neg (by simp [h]), alGet_loadRow, if_neg h]

theorem loadRows_ext (k : LoadKind) (params : List String) (rows : List Row)
    (s1 s2 : Instances) (h : ∀ key, alGet s1 key = alGet s2 key) (key : String) :
    alGet (loadRows k params rows s1) key = alGet (loadRows k params rows s2) key := by
  rw [alGet_loadRows, alGet_loadRows, h key]

theorem loadRows_comm (k1 k2 : LoadKind) (p1 p2 : List String)
    (rows1 rows2 : List Row) (s : Instances) (hk : k1 ≠ k2) (key : String) :
    alGet (loadRows k1 p1 rows1 (loadRows k2 p2 rows2 s)) key =
      alGet (loadRows k2 p2 rows2 (loadRows k1 p1 rows1 s)) key := by
  rw [alGet_loadRows, alGet_loadRows, alGet_loadRows, alGet_loadRows]
  exact applyRowsOpt_comm k1 k2 p1 p2 key _ _ (alGet s key) hk

theorem foldl_alSet_params_not_mem (f : String → Val) (qs : List String)
    (ps0 : List (String × Val)) (p : String) (h : p ∉ qs) :
    alGet (qs.foldl (fun ps q => alSet ps q (f q)) ps0) p = alGet ps0 p := by
  induction qs generalizing ps0 with
  | nil => rfl
  | cons q qs' ih =>
    simp only [List.mem_cons, not_or] at h
    rw [List.foldl_cons, ih (alSet ps0 q (f q)) h.2,
      alGet_alSet_ne ps0 q p (f q) h.1]

theorem foldl_alSet_params_mem (f : String → Val) (qs : List String)
    (ps0 : List (String × Val)) (p : String) (h : p ∈ qs) :
    alGet (qs.foldl (fun ps q => alSet ps q (f q)) ps0) p = some (f p) := by
  induction qs generalizing ps0 with
  | nil => simp at h
  | cons q qs' ih =>
    rw [List.foldl_cons]
    by_cases h2 : p ∈ qs'
    · exact ih (alSet ps0 q (f q)) h2
    · have hpq : p = q := by
        rcases List.mem_cons.mp h with h3 | h3
        · exact h3
        · exact absurd h3 h2
      subst hpq
      rw [foldl_alSet_params_not_mem f qs' _ p h2, alGet_alSet_self]

theorem target_params_fold_isSome (row : Row) (params : List String)
    (t0 : Option Val) (hp : params ≠ []) :
    (params.foldl (fun _ param => some (.str ((alGet row param).getD ""))) t0).isSome := by
  induction params generalizing t0 with
  | nil => exact absurd rfl hp
  | cons q qs ih =>
    rw [List.foldl_cons]
    rcases eq_or_ne qs [] with h | h
    · subst h
      rfl
    · exact ih _ h

theorem target_rows_fold_isSome (params : List String) (rows : List Row)
    (t0 : Option Val) (hp : params ≠ []) (hr : rows ≠ []) :
    (rows.foldl (fun t row => params.foldl
      (fun _ param => some (.str ((alGet row param).getD ""))) t) t0).isSome := by
  induction rows generalizing t0 with
  | nil => exact absurd rfl hr
  | cons r rs ih =>
    rw [List.foldl_cons]
    rcases eq_or_ne rs [] with h | h
    · subst h
      exact target_params_fold_isSome r params t0 hp
    · exact ih _ h

theorem field_rows_fold_isSome (params : List String) (rows : List Row)
    (ps0 : List (String × Val)) (p : String) (hmem : p ∈ params) (hr : rows ≠ []) :
    (alGet (rows.foldl (fun ps row => params.foldl
      (fun ps param => alSet ps param (.str ((alGet row param).getD ""))) ps) ps0)
      p).isSome := by
  induction rows generalizing ps0 with
  | nil => exact absurd rfl hr
  | cons r rs ih =>
    rw [List.foldl_cons]
    rcases eq_or_ne rs [] with h | h
    · subst h
      simp only [List.foldl_nil]
      rw [foldl_alSet_params_mem (fun q => .str ((alGet r q).getD "")) params ps0 p hmem]
      rfl
    · exact ih _ h

/-- C6: three delimited sources with matching headers sharing one id set
(one properties, one features, one target source) can be loaded in any of
the six orders: every order succeeds, all six final collections agree on
every id, and in the merged result every shared id's instance has its
properties, features and target all populated — each load writes only the
fields of its own kind, as the commuting argument requires. -/
theorem load_three_sources_any_order (s : Instances) (tP tF tT : TsvFile)
    (pParams fParams : List String)
    (hP : sameSet pParams (tP.fieldnames.drop 1) = true)
    (hF : sameSet fParams (tF.fieldnames.drop 1) = true)
    (hT : sameSet ["target"] (tT.fieldnames.drop 1) = true)
    (hidsF : ∀ key, (∃ r ∈ tP.rows, rowId r = key) ↔ (∃ r ∈ tF.rows, rowId r = key))
    (hidsT : ∀ key, (∃ r ∈ tP.rows, rowId r = key) ↔ (∃ r ∈ tT.rows, rowId r = key)) :
    ∃ u uPTF uFPT uFTP uTPF uTFP : Instances,
      (Instances.add_properties_from_tsv s tP pParams).bind
        (fun s1 => (Instances.add_features_from_tsv s1 tF fParams).bind
          (fun s2 => Instances.add_target_from_tsv s2 tT)) = .ok u ∧
      (Instances.add_properties_from_tsv s tP pParams).bind
        (fun s1 => (Instances.add_target_from_tsv s1 tT).bind
          (fun s2 => Instances.add_features_from_tsv s2 tF fParams)) = .ok uPTF ∧
      (Instances.add_features_from_tsv s tF fParams).bind
        (fun s1 => (Instances.add_properties_from_tsv s1 tP pParams).bind
          (fun s2 => Instances.add_target_from_tsv s2 tT)) = .ok uFPT ∧
      (Instances.add_features_from_tsv s tF fParams).bind
        (fun s1 => (Instances.add_target_from_tsv s1 tT).bind
          (fun s2 => Instances.add_properties_from_tsv s2 tP pParams)) = .ok uFTP ∧
      (Instances.add_target_from_tsv s tT).bind
        (fun s1 => (Instances.add_properties_from_tsv s1 tP pParams).bind
          (fun s2 => Instances.add_features_from_tsv s2 tF fParams)) = .ok uTPF ∧
      (Instances.add_target_from_tsv s tT).bind
        (fun s1 => (Instances.add_features_from_tsv s1 tF fParams).bind
          (fun s2 => Instances.add_properties_from_tsv s2 tP pParams)) = .ok uTFP ∧
      (∀ key, alGet uPTF key = alGet u key) ∧
      (∀ key, alGet uFPT key = alGet u key) ∧
      (∀ key, alGet uFTP key = alGet u key) ∧
      (∀ key, alGet uTPF key = alGet u key) ∧
      (∀ key, alGet uTFP key = alGet u key) ∧
      (∀ key, (∃ r ∈ tP.rows, rowId r = key) →
        ∃ ins, alGet u key = some ins ∧
          (∀ p ∈ pParams, (ins.get_property p).isSome) ∧
          (∀ f ∈ fParams, (alGet ins.features f).isSome) ∧
          ins.target.isSome) := by
  have hPok : ∀ s' : Instances, Instances.add_properties_from_tsv s' tP pParams =
      .ok (loadRows .properties pParams tP.rows s') := by
    intro s'
    simp only [Instances.add_properties_from_tsv, loadFromTsv, hP, if_true]
  have hFok : ∀ s' : Instances, Instances.add_features_from_tsv s' tF fParams =
      .ok (loadRows .features fParams tF.rows s') := by
    intro s'
    simp only [Instances.add_features_from_tsv, loadFromTsv, hF, if_true]
  have hTok : ∀ s' : Instances, Instances.add_target_from_tsv s' tT =
      .ok (loadRows .target ["target"] tT.rows s') := by
    intro s'
    simp only [Instances.add_target_from_tsv, loadFromTsv, hT, if_true]
  have hPF : (LoadKind.properties : LoadKind) ≠ .features := by decide
  have hPT : (LoadKind.properties : LoadKind) ≠ .target := by decide
  have hFT : (LoadKind.features : LoadKind) ≠ .target := by decide
  refine ⟨loadRows .target ["target"] tT.rows (loadRows .features fParams tF.rows
      (loadRows .properties pParams tP.rows s)),
    loadRows .features fParams tF.rows (loadRows .target ["target"] tT.rows
      (loadRows .properties pParams tP.rows s)),
    loadRows .target ["target"] tT.rows (loadRows .properties pParams tP.rows
      (loadRows .features fParams tF.rows s)),
    loadRows .properties pParams tP.rows (loadRows .target ["target"] tT.rows
      (loadRows .features fParams tF.rows s)),
    loadRows .features fParams tF.rows (loadRows .properties pParams tP.rows
      (loadRows .target ["target"] tT.rows s)),
    loadRows .properties pParams tP.rows (loadRows .features fParams tF.rows
      (loadRows .target ["target"] tT.rows s)),
    ?_, ?_, ?_, ?_, ?_, ?_, ?_, ?_, ?_, ?_, ?_, ?_⟩
  · simp only [hPok, hFok, hTok, Except.bind]
  · simp only [hPok, hFok, hTok, Except.bind]
  · simp only [hPok, hFok, hTok, Except.bind]
  · simp only [hPok, hFok, hTok, Except.bind]
  · simp only [hPok, hFok, hTok, Except.bind]
  · simp only [hPok, hFok, hTok, Except.bind]
  · intro key
    exact loadRows_comm .features .target fParams ["target"] tF.rows tT.rows
      (loadRows .properties pParams tP.rows s) hFT key
  · intro key
    exact loadRows_ext .target ["target"] tT.rows _ _
      (fun k => loadRows_comm .properties .features pParams fParams
        tP.rows tF.rows s hPF k) key
  · intro key
    calc alGet (loadRows .properties pParams tP.rows
          (loadRows .target ["target"] tT.rows
            (loadRows .features fParams tF.rows s))) key =
        alGet (loadRows .target ["target"] tT.rows
          (loadRows .properties pParams tP.rows
            (loadRows .features fParams tF.rows s))) key :=
          loadRows_comm .properties .target pParams ["target"] tP.rows tT.rows
            (loadRows .features fParams tF.rows s) hPT key
      _ = alGet (loadRows .target ["target"] tT.rows
            (loadRows .features fParams tF.rows
              (loadRows .properties pParams tP.rows s))) key :=
          loadRows_ext .target ["target"] tT.rows _ _
            (fun k => loadRows_comm .properties .features pParams fParams
              tP.rows tF.rows s hPF k) key
  · intro key
    calc alGet (loadRows .features fParams tF.rows
          (loadRows .properties pParams tP.rows
            (loadRows .target ["target"] tT.rows s))) key =
        alGet (loadRows .features fParams tF.rows
          (loadRows .target ["target"] tT.rows
            (loadRows .properties pParams tP.rows s))) key :=
          loadRows_ext .features fParams tF.rows _ _
            (fun k => loadRows_comm .properties .target pParams ["target"]
              tP.rows tT.rows s hPT k) key
      _ = alGet (loadRows .target ["target"] tT.rows
            (loadRows .features fParams tF.rows
              (loadRows .properties pParams tP.rows s))) key :=
          loadRows_comm .features .target fParams ["target"] tF.rows tT.rows
            (loadRows .properties pParams tP.rows s) hFT key
  · intro key
    calc alGet (loadRows .properties pParams tP.rows
          (loadRows .features fParams tF.rows
            (loadRows .target ["target"] tT.rows s))) key =
        alGet (loadRows .features fParams tF.rows
          (loadRows .properties pParams tP.rows
            (loadRows .target ["target"] tT.rows s))) key :=
          loadRows_comm .properties .features pParams fParams tP.rows tF.rows
            (loadRows .target ["target"] tT.rows s) hPF key
      _ = alGet (loadRows .features fParams tF.rows
            (loadRows .target ["target"] tT.rows
              (loadRows .properties pParams tP.rows s))) key :=
          loadRows_ext .features fParams tF.rows _ _
            (fun k => loadRows_comm .properties .target pParams ["target"]
              tP.rows tT.rows s hPT k) key
      _ = alGet (loadRows .target ["target"] tT.rows
            (loadRows .features fParams tF.rows
              (loadRows .properties pParams tP.rows s))) key :=
          loadRows_comm .features .target fParams ["target"] tF.rows tT.rows
            (loadRows .properties pParams tP.rows s) hFT key
  · intro key hkey
    have hfP : tP.rows.filter (fun r => decide (rowId r = key)) ≠ [] := by
      intro heq
      rcases hkey with ⟨r, hr, hid⟩
      have := List.filter_eq_nil_iff.mp heq r hr
      simp [hid] at this
    have hfF : tF.rows.filter (fun r => decide (rowId r = key)) ≠ [] := by
      intro heq
      rcases (hidsF key).mp hkey with ⟨r, hr, hid⟩
      have := List.filter_eq_nil_iff.mp heq r hr
      simp [hid] at this
    have hfT : tT.rows.filter (fun r => decide (rowId r = key)) ≠ [] := by
      intro heq
      rcases (hidsT key).mp hkey with ⟨r, hr, hid⟩
      have := List.filter_eq_nil_iff.mp heq r hr
      simp [hid] at this
    rw [alGet_loadRows, alGet_loadRows, alGet_loadRows,
      applyRowsOpt_ne_nil _ _ _ _ _ hfP, applyRowsOpt_some, applyRowsOpt_some]
    refine ⟨_, rfl, ?_, ?_, ?_⟩
    · intro p hp
      rw [rowsUpdate_target_eq, rowsUpdate_feats_eq, rowsUpdate_props_eq]
      exact field_rows_fold_isSome pParams _ _ p hp hfP
    · intro f hf
      rw [rowsUpdate_target_eq, rowsUpdate_feats_eq]
      exact field_rows_fold_isSome fParams _ _ f hf hfF
    · rw [rowsUpdate_target_eq]
      exact target_rows_fold_isSome ["target"] _ _ (by decide) hfT

theorem load_three_sources_any_order_witness :
    ∃ u uPTF uFPT uFTP uTPF uTFP : Instances,
      (Instances.add_properties_from_tsv ([] : Instances) ⟨"p.tsv", ["id", "sequence"], [[("id", "1"), ("sequence", "a")]]⟩ ["sequence"]).bind
        (fun s1 => (Instances.add_features_from_tsv s1 ⟨"f.tsv", ["id", "len"], [[("id", "1"), ("len", "3")]]⟩ ["len"]).bind
          (fun s2 => Instances.add_target_from_tsv s2 ⟨"t.tsv", ["id", "target"], [[("id", "1"), ("target", "0")]]⟩)) = .ok u ∧
      (Instances.add_properties_from_tsv ([] : Instances) ⟨"p.tsv", ["id", "sequence"], [[("id", "1"), ("sequence", "a")]]⟩ ["sequence"]).bind
        (fun s1 => (Instances.add_target_from_tsv s1 ⟨"t.tsv", ["id", "target"], [[("id", "1"), ("target", "0")]]⟩).bind
          (fun s2 => Instances.add_features_from_tsv s2 ⟨"f.tsv", ["id", "len"], [[("id", "1"), ("len", "3")]]⟩ ["len"])) = .ok uPTF ∧
      (Instances.add_features_from_tsv ([] : Instances) ⟨"f.tsv", ["id", "len"], [[("id", "1"), ("len", "3")]]⟩ ["len"]).bind
        (fun s1 => (Instances.add_properties_from_tsv s1 ⟨"p.tsv", ["id", "sequence"], [[("id", "1"), ("sequence", "a")]]⟩ ["sequence"]).bind
          (fun s2 => Instances.add_target_from_tsv s2 ⟨"t.tsv", ["id", "target"], [[("id", "1"), ("target", "0")]]⟩)) = .ok uFPT ∧
      (Instances.add_features_from_tsv ([] : Instances) ⟨"f.tsv", ["id", "len"], [[("id", "1"), ("len", "3")]]⟩ ["len"]).bind
        (fun s1 => (Instances.add_target_from_tsv s1 ⟨"t.tsv", ["id", "target"], [[("id", "1"), ("target", "0")]]⟩).bind
          (fun s2 => Instances.add_properties_from_tsv s2 ⟨"p.tsv", ["id", "sequence"], [[("id", "1"), ("sequence", "a")]]⟩ ["sequence"])) = .ok uFTP ∧
      (Instances.add_target_from_tsv ([] : Instances) ⟨"t.tsv", ["id", "target"], [[("id", "1"), ("target", "0")]]⟩).bind
        (fun s1 => (Instances.add_properties_from_tsv s1 ⟨"p.tsv", ["id", "sequence"], [[("id", "1"), ("sequence", "a")]]⟩ ["sequence"]).bind
          (fun s2 => Instances.add_features_from_tsv s2 ⟨"f.tsv", ["id", "len"], [[("id", "1"), ("len", "3")]]⟩ ["len"])) = .ok uTPF ∧
      (Instances.add_target_from_tsv ([] : Instances) ⟨"t.tsv", ["id", "target"], [[("id", "1"), ("target", "0")]]⟩).bind
        (fun s1 => (Instances.add_features_from_tsv s1 ⟨"f.tsv", ["id", "len"], [[("id", "1"), ("len", "3")]]⟩ ["len"]).bind
          (fun s2 => Instances.add_properties_from_tsv s2 ⟨"p.tsv", ["id", "sequence"], [[("id", "1"), ("sequence", "a")]]⟩ ["sequence"])) = .ok uTFP ∧
      (∀ key, alGet uPTF key = alGet u key) ∧
      (∀ key, alGet uFPT key = alGet u key) ∧
      (∀ key, alGet uFTP key = alGet u key) ∧
      (∀ key, alGet uTPF key = alGet u key) ∧
      (∀ key, alGet uTFP key = alGet u key) ∧
      (∀ key, (∃ r ∈ (⟨"p.tsv", ["id", "sequence"], [[("id", "1"), ("sequence", "a")]]⟩ : TsvFile).rows, rowId r = key) →
        ∃ ins, alGet u key = some ins ∧
          (∀ p ∈ (["sequence"] : List String), (ins.get_property p).isSome) ∧
          (∀ f ∈ (["len"] : List String), (alGet ins.features f).isSome) ∧
          ins.target.isSome) :=
  load_three_sources_any_order ([] : Instances)
    ⟨"p.tsv", ["id", "sequence"], [[("id", "1"), ("sequence", "a")]]⟩
    ⟨"f.tsv", ["id", "len"], [[("id", "1"), ("len", "3")]]⟩
    ⟨"t.tsv", ["id", "target"], [[("id", "1"), ("target", "0")]]⟩
    ["sequence"] ["len"] (by decide) (by decide) (by decide)
    (fun key => by
      constructor
      · rintro ⟨r, hr, hid⟩
        rw [List.mem_singleton] at hr
        subst hr
        exact ⟨[("id", "1"), ("len", "3")], List.mem_singleton.mpr rfl,
          by rw [← hid]; decide⟩
      · rintro ⟨r, hr, hid⟩
        rw [List.mem_singleton] at hr
        subst hr
        exact ⟨[("id", "1"), ("sequence", "a")], List.mem_singleton.mpr rfl,
          by rw [← hid]; decide⟩)
    (fun key => by
      constructor
      · rintro ⟨r, hr, hid⟩
        rw [List.mem_singleton] at hr
        subst hr
        exact ⟨[("id", "1"), ("target", "0")], List.mem_singleton.mpr rfl,
          by rw [← hid]; decide⟩
      · rintro ⟨r, hr, hid⟩
        rw [List.mem_singleton] at hr
        subst hr
        exact ⟨[("id", "1"), ("sequence", "a")], List.mem_singleton.mpr rfl,
          by rw [← hid]; decide⟩)


theorem to_treceval_ordering_witness :
    List.Sorted (fun a b => ovLeB a b = true)
      ((rankedGroups [("1", { id := "1", score := some (2 : Rat) })] "q" "d").map Prod.fst) ∧
    ((rankedGroups [("1", { id := "1", score := some (2 : Rat) })] "q" "d").map Prod.fst).Nodup ∧
    (∀ g ∈ rankedGroups [("1", { id := "1", score := some (2 : Rat) })] "q" "d",
      List.Sorted (fun a b : Option Val × Rat => b.2 ≤ a.2) g.2 ∧
      (trecevalRows [("1", { id := "1", score := some (2 : Rat) })] "q" "d").filter (fun r => decide (r.qid = g.1)) =
        g.2.enum.map (fun p => (⟨g.1, p.2.1, p.1 + 1, p.2.2⟩ : TrecRow)) ∧
      ((trecevalRows [("1", { id := "1", score := some (2 : Rat) })] "q" "d").filter
        (fun r => decide (r.qid = g.1))).map TrecRow.rank =
        List.range' 1 g.2.length) :=
  to_treceval_ordering [("1", { id := "1", score := some (2 : Rat) })] "q" "d"

theorem add_qids_assigns_sequential_ids_witness :
    (Instances.add_qids [("1", { id := "1", properties := [("t", .str "x")] })] "t" =
      ([("1", { id := "1", properties := [("t", .str "x")] })] : Instances).map (fun p => (p.1, (p.2).add_property "q_id"
        (.intv ((idxOfV ((p.2).get_property "t")
          (firstDedupFrom [] (([("1", { id := "1", properties := [("t", .str "x")] })] : Instances).map
            (fun q => (q.2).get_property "t"))) : Int) + 1))))) ∧
    (∀ p ∈ ([("1", { id := "1", properties := [("t", .str "x")] })] : Instances),
        1 ≤ (idxOfV ((p.2).get_property "t")
            (firstDedupFrom [] (([("1", { id := "1", properties := [("t", .str "x")] })] : Instances).map
              (fun q => (q.2).get_property "t"))) : Int) + 1 ∧
        (idxOfV ((p.2).get_property "t")
            (firstDedupFrom [] (([("1", { id := "1", properties := [("t", .str "x")] })] : Instances).map
              (fun q => (q.2).get_property "t"))) : Int) + 1 ≤
          ((firstDedupFrom [] (([("1", { id := "1", properties := [("t", .str "x")] })] : Instances).map
            (fun q => (q.2).get_property "t"))).length : Int)) ∧
    (∀ j : Nat,
        j < (firstDedupFrom [] (([("1", { id := "1", properties := [("t", .str "x")] })] : Instances).map
          (fun q => (q.2).get_property "t"))).length →
        ∃ p ∈ ([("1", { id := "1", properties := [("t", .str "x")] })] : Instances),
          idxOfV ((p.2).get_property "t")
            (firstDedupFrom [] (([("1", { id := "1", properties := [("t", .str "x")] })] : Instances).map
              (fun q => (q.2).get_property "t"))) = j) ∧
    (∀ (ins : Instance) (v : Val),
        (ins.add_property "q_id" v).id = ins.id ∧
        (ins.add_property "q_id" v).features = ins.features ∧
        (ins.add_property "q_id" v).target = ins.target ∧
        (ins.add_property "q_id" v).score = ins.score ∧
        ∀ name : String, name ≠ "q_id" →
          (ins.add_property "q_id" v).get_property name = ins.get_property name) :=
  add_qids_assigns_sequential_ids [("1", { id := "1", properties := [("t", .str "x")] })] "t"

theorem alSet_ne_nil {α β : Type} [DecidableEq α] (l : List (α × β)) (k : α)
    (v : β) : alSet l k v ≠ [] := by
  cases l with
  | nil => simp [alSet]
  | cons p rest =>
    rcases p with ⟨k0, v0⟩
    by_cases h : k0 = k <;> simp [alSet, h]

theorem uStep_groups_ne_nil (qp dp : String)
    (acc : List (Option Val × List (Option Val × Rat))) (ins : Instance)
    (h : ∀ g ∈ acc, g.2 ≠ []) : ∀ g ∈ uStep qp dp acc ins, g.2 ≠ [] := by
  intro g hg
  cases hsc : ins.score with
  | none =>
    rw [show uStep qp dp acc ins = acc by simp [uStep, hsc]] at hg
    exact h g hg
  | some sc =>
    cases hold : alGet ((alGet acc (ins.get_property qp)).getD [])
        (ins.get_property dp) with
    | none =>
      rw [show uStep qp dp acc ins =
          alSet acc (ins.get_property qp)
            (alSet ((alGet acc (ins.get_property qp)).getD [])
              (ins.get_property dp) sc) by simp [uStep, hsc, hold]] at hg
      rcases mem_alSet _ _ _ g hg with h1 | h1
      · rw [h1]
        exact alSet_ne_nil _ _ _
      · exact h g h1
    | some m =>
      by_cases hlt : m < sc
      · rw [show uStep qp dp acc ins =
            alSet acc (ins.get_property qp)
              (alSet ((alGet acc (ins.get_property qp)).getD [])
                (ins.get_property dp) sc) by simp [uStep, hsc, hold, hlt]] at hg
        rcases mem_alSet _ _ _ g hg with h1 | h1
        · rw [h1]
          exact alSet_ne_nil _ _ _
        · exact h g h1
      · rw [show uStep qp dp acc ins = acc by simp [uStep, hsc, hold, hlt]] at hg
        exact h g hg

theorem uniqueEntries_groups_ne_nil (s : Instances) (qp dp : String) :
    ∀ g ∈ uniqueEntries s qp dp, g.2 ≠ [] := by
  suffices hgen : ∀ (l : List Instance)
      (acc : List (Option Val × List (Option Val × Rat))),
      (∀ g ∈ acc, g.2 ≠ []) → ∀ g ∈ l.foldl (uStep qp dp) acc, g.2 ≠ [] from
    hgen (Instances.get_all s) [] (by simp)
  intro l
  induction l with
  | nil => exact fun acc h => h
  | cons x xs ih =>
    intro acc h
    rw [List.foldl_cons]
    exact ih _ (uStep_groups_ne_nil qp dp acc x h)

theorem uniqueEntries_pair_source (s : Instances) (qp dp : String)
    (q d : Option Val) (docs : List (Option Val × Rat)) (sc : Rat)
    (hq : (q, docs) ∈ uniqueEntries s qp dp) (hd : (d, sc) ∈ docs) :
    ∃ ins ∈ Instances.get_all s, ins.get_property qp = q ∧
      ins.get_property dp = d ∧ ins.score = some sc := by
  rcases uniqueEntries_spec s qp dp with ⟨hnd, hinner, hbest⟩
  have hdocs : alGet (uniqueEntries s qp dp) q = some docs :=
    alGet_eq_some_of_mem _ _ _ hnd hq
  have hscore : alGet docs d = some sc :=
    alGet_eq_some_of_mem _ _ _ (hinner (q, docs) hq) hd
  have hb : bestScoreF qp dp q d (Instances.get_all s) = some sc := by
    rw [← hbest, hdocs]
    exact hscore
  rcases fold_scoreStep_some_src qp dp q d (Instances.get_all s) none sc hb
    with h | h
  · simp at h
  · exact h

/-- C3 (counterexample): `to_treceval` does not emit a row for every scored
(qid, docid) pair of every collection — a scored instance whose qid/docid
properties are absent (`None`), or hold the integer `q_id` that `add_qids`
stores, makes the output loop's concatenation raise `TypeError`, so the
call errors and emits nothing although a scored pair exists. -/
theorem to_treceval_raises_on_nonstring_key :
    trecevalResult [("1", { id := "1", score := some (2 : Rat) })] "q" "d" =
      .error "TypeError: cannot concatenate str and non-str (qid or docid)" ∧
    (∃ ins ∈ Instances.get_all [("1", { id := "1", score := some (2 : Rat) })],
      ins.score.isSome) ∧
    trecevalResult
        [("1", { id := "1",
                 properties := [("q_id", .intv 1), ("d", .str "d1")],
                 score := some (2 : Rat) })] "q_id" "d" =
      .error "TypeError: cannot concatenate str and non-str (qid or docid)" ∧
    (∃ ins ∈ Instances.get_all
        [("1", { id := "1",
                 properties := [("q_id", .intv 1), ("d", .str "d1")],
                 score := some (2 : Rat) })],
      ins.score.isSome) :=
  ⟨rfl, by decide, rfl, by decide⟩

/-- C3 (amended): provided every scored instance carries string values
under both the qid property and the docid property (otherwise the output
loop's concatenation raises `TypeError` and nothing is emitted), the
export succeeds and emits exactly one output row per (qid, docid) pair
occurring among the scored instances, carrying the highest score among the
instances sharing that pair; instances whose score is absent contribute no
row and cause no error. -/
theorem to_treceval_dedup_by_max_of_string_keys (s : Instances)
    (qp dp : String)
    (hstr : ∀ ins ∈ Instances.get_all s, ins.score.isSome →
      (∃ q, ins.get_property qp = some (.str q)) ∧
      (∃ d, ins.get_property dp = some (.str d))) :
    trecevalResult s qp dp = .ok (trecevalRows s qp dp) ∧
    ((trecevalRows s qp dp).map (fun r => (r.qid, r.docid))).Nodup ∧
    (∀ r ∈ trecevalRows s qp dp,
      (∃ ins ∈ Instances.get_all s, ins.get_property qp = r.qid ∧
        ins.get_property dp = r.docid ∧ ins.score = some r.score) ∧
      (∀ ins ∈ Instances.get_all s, ins.get_property qp = r.qid →
        ins.get_property dp = r.docid → ∀ sc, ins.score = some sc → sc ≤ r.score)) ∧
    (∀ ins ∈ Instances.get_all s, ∀ sc, ins.score = some sc →
      ∃ r ∈ trecevalRows s qp dp, r.qid = ins.get_property qp ∧
        r.docid = ins.get_property dp) := by
  refine ⟨?_, trecevalRows_dedup_by_max s qp dp⟩
  have hall : ((rankedGroups s qp dp).all
      (fun g => isStrVal g.1 && g.2.all (fun x => isStrVal x.1))) = true := by
    rw [List.all_eq_true]
    intro g hg
    rw [rankedGroups_eq] at hg
    rcases List.mem_map.mp hg with ⟨g0, hg0, hgg⟩
    have hg0u : g0 ∈ uniqueEntries s qp dp :=
      (List.perm_insertionSort _ _).subset hg0
    have hne : g0.2 ≠ [] := uniqueEntries_groups_ne_nil s qp dp g0 hg0u
    obtain ⟨x0, hx0⟩ : ∃ x, x ∈ g0.2 := by
      cases h2 : g0.2 with
      | nil => exact absurd h2 hne
      | cons a t => exact ⟨a, by simp [h2]⟩
    rcases uniqueEntries_pair_source s qp dp g0.1 x0.1 g0.2 x0.2
      (Prod.mk.eta ▸ hg0u) (Prod.mk.eta ▸ hx0) with ⟨ins, hins, hq, _, hsc⟩
    rcases hstr ins hins (by rw [hsc]; rfl) with ⟨⟨qs, hqs⟩, _⟩
    rw [Bool.and_eq_true]
    constructor
    · have hg1 : g.1 = g0.1 := by rw [← hgg]
      rw [hg1, ← hq, hqs]
      rfl
    · rw [List.all_eq_true]
      intro x hx
      have hxu : x ∈ g0.2 := by
        have hg2 : g.2 = List.insertionSort
            (fun a b : Option Val × Rat => b.2 ≤ a.2) g0.2 := by rw [← hgg]
        rw [hg2] at hx
        exact (List.perm_insertionSort _ _).subset hx
      rcases uniqueEntries_pair_source s qp dp g0.1 x.1 g0.2 x.2
        (Prod.mk.eta ▸ hg0u) (Prod.mk.eta ▸ hxu) with ⟨ins2, hins2, _, hd2, hsc2⟩
      rcases (hstr ins2 hins2 (by rw [hsc2]; rfl)).2 with ⟨ds, hds⟩
      rw [← hd2, hds]
      rfl
  simp only [trecevalResult, hall, if_true]

theorem to_treceval_dedup_by_max_of_string_keys_witness :
    trecevalResult [("1", { id := "1", properties := [("q", .str "q1"), ("d", .str "d1")], score := some (2 : Rat) })] "q" "d" = .ok (trecevalRows [("1", { id := "1", properties := [("q", .str "q1"), ("d", .str "d1")], score := some (2 : Rat) })] "q" "d") ∧
    ((trecevalRows [("1", { id := "1", properties := [("q", .str "q1"), ("d", .str "d1")], score := some (2 : Rat) })] "q" "d").map (fun r => (r.qid, r.docid))).Nodup ∧
    (∀ r ∈ trecevalRows [("1", { id := "1", properties := [("q", .str "q1"), ("d", .str "d1")], score := some (2 : Rat) })] "q" "d",
      (∃ ins ∈ Instances.get_all [("1", { id := "1", properties := [("q", .str "q1"), ("d", .str "d1")], score := some (2 : Rat) })], ins.get_property "q" = r.qid ∧
        ins.get_property "d" = r.docid ∧ ins.score = some r.score) ∧
      (∀ ins ∈ Instances.get_all [("1", { id := "1", properties := [("q", .str "q1"), ("d", .str "d1")], score := some (2 : Rat) })], ins.get_property "q" = r.qid →
        ins.get_property "d" = r.docid → ∀ sc, ins.score = some sc → sc ≤ r.score)) ∧
    (∀ ins ∈ Instances.get_all [("1", { id := "1", properties := [("q", .str "q1"), ("d", .str "d1")], score := some (2 : Rat) })], ∀ sc, ins.score = some sc →
      ∃ r ∈ trecevalRows [("1", { id := "1", properties := [("q", .str "q1"), ("d", .str "d1")], score := some (2 : Rat) })] "q" "d", r.qid = ins.get_property "q" ∧
        r.docid = ins.get_property "d") :=
  to_treceval_dedup_by_max_of_string_keys [("1", { id := "1", properties := [("q", .str "q1"), ("d", .str "d1")], score := some (2 : Rat) })] "q" "d"
    (fun ins hins _ => by
      have hi : ins = { id := "1", properties := [("q", .str "q1"), ("d", .str "d1")], score := some (2 : Rat) } := by
        simpa [Instances.get_all] using hins
      subst hi
      exact ⟨⟨"q1", rfl⟩, ⟨"d1", rfl⟩⟩)
